import Mathlib

/-!
Verification of the restclient library (src/restclient/__init__.py).

The development shallowly embeds the request-construction and
response-decoding logic of the library: Python strings are Lean strings
(sequences of unicode scalar values), Python bytes are lists of naturals
below 256, Python dicts are entry arrays with CPython's replace-in-place /
append-at-end / dummy-on-delete behaviour, and dict iteration carries
CPython's mutation checks (RuntimeError on a size change or on a key
change between steps).  Fallible Python code returns Except.
-/

/-- Errors a modelled Python computation can raise. -/
inductive PyErr where
  | keyError
  | runtimeError
  | attributeError
  | typeError
  | jsonDecodeError
  | fuelExhausted
deriving DecidableEq, Repr

/-- Bytes: a Python bytes object, each element below 256. -/
abbrev Bytes := List Nat

/-- The Python values the library's dicts hold: str, bytes and int. -/
inductive PyVal where
  | str (s : String)
  | bytes (b : Bytes)
  | int (n : Int)
deriving DecidableEq, Repr

/-- True on 7-bit characters: encoding them to ASCII succeeds. -/
def isAsciiChar (c : Char) : Bool := c.toNat < 128

/-- Python s.encode('ascii'): the byte sequence, or failure with
UnicodeEncodeError when a character is outside the 7-bit range. -/
def py_encode_ascii (s : String) : Option Bytes :=
  if s.data.all isAsciiChar then some (s.data.map Char.toNat) else none

/-- Python s.encode('ascii', 'ignore'): non-ASCII characters are dropped. -/
def py_encode_ascii_ignore (s : String) : Bytes :=
  (s.data.filter isAsciiChar).map Char.toNat

/-- UTF-8 encoding of one unicode scalar value. -/
def utf8Char (c : Char) : Bytes :=
  let v := c.toNat
  if v < 0x80 then [v]
  else if v < 0x800 then [0xC0 + v / 64, 0x80 + v % 64]
  else if v < 0x10000 then [0xE0 + v / 4096, 0x80 + v / 64 % 64, 0x80 + v % 64]
  else [0xF0 + v / 0x40000, 0x80 + v / 4096 % 64, 0x80 + v / 64 % 64, 0x80 + v % 64]

/-- Python s.encode('utf8'). -/
def utf8Str (s : String) : Bytes := s.data.flatMap utf8Char

/-- Decimal digit character for a value below ten. -/
def decDigit (m : Nat) : Char :=
  match m with
  | 0 => '0' | 1 => '1' | 2 => '2' | 3 => '3' | 4 => '4'
  | 5 => '5' | 6 => '6' | 7 => '7' | 8 => '8' | _ => '9'

/-- Decimal digits with fuel (structural recursion, so the kernel can
evaluate it); fuel above the number always suffices. -/
def natDigitsAux : Nat → Nat → List Char
  | 0, _ => []
  | fuel + 1, m =>
    if m < 10 then [decDigit m]
    else natDigitsAux fuel (m / 10) ++ [decDigit (m % 10)]

/-- Decimal digits of a natural number, most significant first. -/
def natDigits (m : Nat) : List Char := natDigitsAux (m + 1) m

/-- Decimal string of a natural number, as Python str(n) prints it. -/
def natStrS (m : Nat) : String := String.mk (natDigits m)

/-- Python str(n) for an int: decimal digits with a leading minus sign when
negative. -/
def py_int_str (n : Int) : String :=
  if n < 0 then "-" ++ natStrS (-n).toNat else natStrS n.toNat

/-- Lowercase hexadecimal digit for a value below sixteen. -/
def hexDigitLower (m : Nat) : Char :=
  match m with
  | 0 => '0' | 1 => '1' | 2 => '2' | 3 => '3' | 4 => '4'
  | 5 => '5' | 6 => '6' | 7 => '7' | 8 => '8' | 9 => '9'
  | 10 => 'a' | 11 => 'b' | 12 => 'c' | 13 => 'd' | 14 => 'e' | _ => 'f'

/-- One byte inside a Python bytes repr, with q the active quote character:
backslash and the quote are escaped, tab, newline and carriage return use
their short escapes, printable bytes print as themselves and everything
else becomes a lowercase hexadecimal escape. -/
def byteReprIn (q : Char) (b : Nat) : String :=
  if b = 92 then "\\\\"
  else if b = q.toNat then String.mk ['\\', q]
  else if b = 9 then "\\t"
  else if b = 10 then "\\n"
  else if b = 13 then "\\r"
  else if 32 ≤ b ∧ b < 127 then String.mk [Char.ofNat b]
  else "\\x" ++ String.mk [hexDigitLower (b / 16 % 16), hexDigitLower (b % 16)]

/-- Python repr(bytes): b'...' with a single quote unless the content holds
a single quote and no double quote. -/
def py_bytes_repr (bs : Bytes) : String :=
  let q : Char := if bs.contains 39 ∧ ¬ bs.contains 34 then '"' else '\''
  "b" ++ String.mk [q] ++ String.join (bs.map (byteReprIn q)) ++ String.mk [q]

/-- Python str(v) on the values the model holds. -/
def py_str : PyVal → String
  | .str s => s
  | .bytes bs => py_bytes_repr bs
  | .int n => py_int_str n

/-- Python sep.join(list). -/
def py_join (sep : String) : List String → String
  | [] => ""
  | [x] => x
  | x :: y :: t => x ++ sep ++ py_join sep (y :: t)

/-- Python pre in s restricted to prefixes: s.startswith(pre). -/
def py_startswith (s pre : String) : Bool := pre.data.isPrefixOf s.data

/-- Python s.endswith(suf). -/
def py_endswith (s suf : String) : Bool := suf.data.reverse.isPrefixOf s.data.reverse

/-- Python len(s) on str: the number of unicode scalar values. -/
def py_len (s : String) : Nat := s.data.length

/-!
The CPython dict model.  A dict is an entry array: live slots hold a
key/value pair, deleted slots stay behind as dummies (none).  Replacing the
value of a present key happens in place; inserting a new key appends at the
end of the array.  An iterator remembers the size at its creation, the
next position to scan and a count of entries still expected; each step
first compares the remembered size with the current size (RuntimeError,
dictionary changed size during iteration, when they differ), then scans
for the next live entry at or after the position; finding one when the
expected count is already zero raises RuntimeError, dictionary keys
changed during iteration.  This is CPython's dictiter_iternextkey
behaviour, checked against CPython 3.11 on the inputs appearing below.
The model assumes no table resize happens, which holds for the small
dicts appearing in the theorems below.
-/

/-- One slot of the dict's entry array: none is a dummy left by a delete. -/
abbrev PyEntry := Option (PyVal × PyVal)

/-- Lookup in the entry array: the value of the first live slot whose key
matches. -/
def lookupEntries : List PyEntry → PyVal → Option PyVal
  | [], _ => none
  | none :: es, k => lookupEntries es k
  | some (k', v') :: es, k => if k' = k then some v' else lookupEntries es k

/-- Store into the entry array: replace the value in place when the key is
live, append a fresh slot at the end otherwise. -/
def setEntries : List PyEntry → PyVal → PyVal → List PyEntry
  | [], k, v => [some (k, v)]
  | none :: es, k, v => none :: setEntries es k v
  | some (k', v') :: es, k, v =>
    if k' = k then some (k, v) :: es else some (k', v') :: setEntries es k v

/-- Delete from the entry array: the live slot becomes a dummy; none when
the key is absent (KeyError). -/
def delEntries : List PyEntry → PyVal → Option (List PyEntry)
  | [], _ => none
  | none :: es, k => (delEntries es k).map (none :: ·)
  | some (k', v') :: es, k =>
    if k' = k then some (none :: es) else (delEntries es k).map (some (k', v') :: ·)

/-- A Python dict: its entry array. -/
structure PyDict where
  entries : List PyEntry
deriving DecidableEq, Repr

/-- d[k] as an option. -/
def PyDict.lookup (d : PyDict) (k : PyVal) : Option PyVal := lookupEntries d.entries k

/-- d[k] = v. -/
def PyDict.set (d : PyDict) (k v : PyVal) : PyDict := ⟨setEntries d.entries k v⟩

/-- del d[k], KeyError when absent. -/
def PyDict.del (d : PyDict) (k : PyVal) : Except PyErr PyDict :=
  match delEntries d.entries k with
  | some es => .ok ⟨es⟩
  | none => .error .keyError

/-- d[k] raising KeyError when absent. -/
def PyDict.get (d : PyDict) (k : PyVal) : Except PyErr PyVal :=
  match d.lookup k with
  | some v => .ok v
  | none => .error .keyError

/-- k in d. -/
def PyDict.hasKey (d : PyDict) (k : PyVal) : Bool := (d.lookup k).isSome

/-- len(d): the number of live slots. -/
def PyDict.size (d : PyDict) : Nat := (d.entries.filterMap id).length

/-- The live entries in array order, as Python d.items() lists them. -/
def PyDict.items (d : PyDict) : List (PyVal × PyVal) := d.entries.filterMap id

/-- Build a dict from a list of pairs in insertion order. -/
def PyDict.ofList (l : List (PyVal × PyVal)) : PyDict :=
  ⟨l.map some⟩

/-- First live slot of an entry array together with the next scan position
(one past the slot found). -/
def firstLive : List PyEntry → Option (PyVal × Nat)
  | [] => none
  | none :: es => (firstLive es).map (fun p => (p.1, p.2 + 1))
  | some (k, _) :: _ => some (k, 1)

/-- One step of a dict iterator created when the dict had size du, with pos
the next scan position and len the count of entries still expected: raise
RuntimeError when the current size differs from du; otherwise scan for the
next live key at or after pos.  None when exhausted; finding a key with
len already zero raises RuntimeError (keys changed during iteration),
otherwise the key is yielded with the new position. -/
def nextKey (d : PyDict) (pos len du : Nat) : Except PyErr (Option (PyVal × Nat)) :=
  if d.size ≠ du then .error .runtimeError
  else
    match firstLive (d.entries.drop pos) with
    | none => .ok none
    | some (k, off) =>
      if len = 0 then .error .runtimeError else .ok (some (k, pos + off))

/-- All live keys and values are ASCII-only strings. -/
def asciiVal : PyVal → Bool
  | .str s => s.data.all isAsciiChar
  | _ => false

/-- Every live key and value of the dict is an ASCII-only string. -/
def PyDict.allAsciiStr (d : PyDict) : Bool :=
  d.entries.all fun e =>
    match e with
    | none => true
    | some (k, v) => asciiVal k && asciiVal v

/-- Whether a value is a Python str. -/
def PyVal.isStr : PyVal → Bool
  | .str _ => true
  | _ => false

/-- The .encode method exists only on str: calling it elsewhere raises
AttributeError. -/
def PyVal.toStr : PyVal → Except PyErr String
  | .str s => .ok s
  | _ => .error .attributeError

/-!
fix_params and fix_headers (src/restclient/__init__.py lines 498-548),
translated statement by statement.  Both functions iterate over d.keys()
while inserting and deleting, so they run on the iterator model above.
The loops carry fuel; the top-level entry points pass fuel large enough
for every possible chain of appends, so fuelExhausted never occurs.
-/

/-- Body of the first fix_params loop for one yielded key: a non-str key is
re-filed under str(key); a str key that fails ASCII encoding is re-filed
under its UTF-8 bytes. -/
def fpBody1 (d : PyDict) (k : PyVal) : Except PyErr PyDict :=
  match k with
  | .str s =>
    match py_encode_ascii s with
    | some _ => .ok d
    | none => do
      let v ← d.get k
      let d := d.set (.bytes (utf8Str s)) v
      d.del k
  | _ => do
    let v ← d.get k
    let d := d.set (.str (py_str k)) v
    d.del k

/-- Body of the second fix_params loop for one yielded key: a non-str value
becomes str(value); a str value that fails ASCII encoding becomes its
UTF-8 bytes. -/
def fpBody2 (d : PyDict) (k : PyVal) : Except PyErr PyDict := do
  let v ← d.get k
  let d := if v.isStr then d else d.set k (.str (py_str v))
  let v2 ← d.get k
  let vs ← v2.toStr
  match py_encode_ascii vs with
  | some _ => .ok d
  | none => .ok (d.set k (.bytes (utf8Str vs)))

/-- A Python for-loop over a dict iterator: fuel, the dict, the scan
position, the expected-remaining count and the creation size.  Each pass
asks the iterator for a key, runs the body and continues with the body's
dict. -/
def pyIterLoop (body : PyDict → PyVal → Except PyErr PyDict) :
    Nat → PyDict → Nat → Nat → Nat → Except PyErr PyDict
  | 0, _, _, _, _ => .error .fuelExhausted
  | fuel + 1, d, pos, len, du => do
    match ← nextKey d pos len du with
    | none => .ok d
    | some (k, pos') =>
      let d' ← body d k
      pyIterLoop body fuel d' pos' (len - 1) du

/-- fix_params (lines 498-527): normalize parameter keys, then values. -/
def fix_params (d : PyDict) : Except PyErr PyDict := do
  let d ← pyIterLoop fpBody1 (3 * d.entries.length + 8) d 0 d.size d.size
  pyIterLoop fpBody2 (d.entries.length + 8) d 0 d.size d.size

/-- Body of the fix_headers loop for one yielded key.  A non-str key is
re-filed under str(key), after which headers[k] raises KeyError (the
original key was just deleted).  For a str key, a non-str value becomes
str(value); then value and key are test-encoded to ASCII, and on failure
both are re-filed in lossy ASCII bytes form under the lossy key. -/
def fhBody (d : PyDict) (k : PyVal) : Except PyErr PyDict := do
  let d ←
    match k with
    | .str _ => pure d
    | _ => do
      let v ← d.get k
      let d := d.set (.str (py_str k)) v
      d.del k
  let v ← d.get k
  let d := if v.isStr then d else d.set k (.str (py_str v))
  let v2 ← d.get k
  let vs ← v2.toStr
  let ks ← k.toStr
  match py_encode_ascii vs with
  | some _ =>
    match py_encode_ascii ks with
    | some _ => .ok d
    | none => do
      let d := d.set (.bytes (py_encode_ascii_ignore ks)) (.bytes (py_encode_ascii_ignore vs))
      d.del k
  | none => do
    let d := d.set (.bytes (py_encode_ascii_ignore ks)) (.bytes (py_encode_ascii_ignore vs))
    d.del k

/-- fix_headers (lines 530-548): normalize header keys and values to an
ASCII-safe form. -/
def fix_headers (d : PyDict) : Except PyErr PyDict :=
  pyIterLoop fhBody (3 * d.entries.length + 8) d 0 d.size d.size

/-!
urllib.parse.urlencode with its default quote_plus quoting, modelled from
the behaviour of the external urllib collaborator: alphanumerics and the
characters underscore, dot, hyphen and tilde pass through, a space becomes
a plus, and every other byte becomes a percent escape in uppercase
hexadecimal; str input is quoted through its UTF-8 bytes, bytes input is
quoted directly, any other value through str().  Pairs are joined as
key=value with ampersands, iterating the dict in entry order.
-/

/-- Uppercase hexadecimal digit for a value below sixteen. -/
def hexDigitUpper (m : Nat) : Char :=
  match m with
  | 0 => '0' | 1 => '1' | 2 => '2' | 3 => '3' | 4 => '4'
  | 5 => '5' | 6 => '6' | 7 => '7' | 8 => '8' | 9 => '9'
  | 10 => 'A' | 11 => 'B' | 12 => 'C' | 13 => 'D' | 14 => 'E' | _ => 'F'

/-- A byte quote_plus leaves unquoted: ASCII alphanumerics and _.-~ . -/
def quoteSafeByte (b : Nat) : Bool :=
  (48 ≤ b ∧ b ≤ 57) ∨ (65 ≤ b ∧ b ≤ 90) ∨ (97 ≤ b ∧ b ≤ 122) ∨
    b = 95 ∨ b = 46 ∨ b = 45 ∨ b = 126

/-- quote_plus on one byte. -/
def quotePlusByte (b : Nat) : String :=
  if quoteSafeByte b then String.mk [Char.ofNat b]
  else if b = 32 then "+"
  else "%" ++ String.mk [hexDigitUpper (b / 16 % 16), hexDigitUpper (b % 16)]

/-- quote_plus on a byte sequence. -/
def quotePlusBytes (bs : Bytes) : String := String.join (bs.map quotePlusByte)

/-- quote_plus on a Python value, as urlencode applies it. -/
def quote_plus : PyVal → String
  | .str s => quotePlusBytes (utf8Str s)
  | .bytes bs => quotePlusBytes bs
  | .int n => quotePlusBytes (utf8Str (py_int_str n))

/-- urllib.parse.urlencode over the dict's items in entry order. -/
def urlencode (d : PyDict) : String :=
  py_join "&" (d.items.map fun kv => quote_plus kv.1 ++ "=" ++ quote_plus kv.2)

/-!
The JSON codec (the json module, an external collaborator): values, the
serializer json.dumps with its defaults (ensure_ascii, separators comma
space and colon space) and the parser json.loads.  Numeric literals are
kept as the text the parser matched; the claims only exercise integer
literals, which dumps prints canonically, so no information is lost.
-/

/-- A decoded JSON value.  numLit keeps the numeric literal as matched. -/
inductive Json where
  | str (s : String)
  | numLit (s : String)
  | bool (b : Bool)
  | null
  | arr (xs : List Json)
  | obj (kvs : List (String × Json))
deriving Repr

/-- Four lowercase hexadecimal digits of a value below 0x10000. -/
def jHex4 (n : Nat) : List Char :=
  [hexDigitLower (n / 4096 % 16), hexDigitLower (n / 256 % 16),
   hexDigitLower (n / 16 % 16), hexDigitLower (n % 16)]

/-- json.dumps escaping of one character with ensure_ascii: quote and
backslash escaped, printable ASCII literal, the short control escapes,
then unicode escapes, astral characters as a surrogate pair. -/
def jEscapeChar (c : Char) : List Char :=
  if c = '"' then ['\\', '"']
  else if c = '\\' then ['\\', '\\']
  else if 32 ≤ c.toNat ∧ c.toNat ≤ 126 then [c]
  else if c = '\n' then ['\\', 'n']
  else if c = '\t' then ['\\', 't']
  else if c = '\r' then ['\\', 'r']
  else if c.toNat = 8 then ['\\', 'b']
  else if c.toNat = 12 then ['\\', 'f']
  else if c.toNat < 0x10000 then '\\' :: 'u' :: jHex4 c.toNat
  else
    ('\\' :: 'u' :: jHex4 (0xD800 + (c.toNat - 0x10000) / 1024)) ++
      ('\\' :: 'u' :: jHex4 (0xDC00 + (c.toNat - 0x10000) % 1024))

/-- json.dumps of a string: quoted, each character escaped as above. -/
def jDumpString (s : String) : String :=
  "\"" ++ String.mk (s.data.flatMap jEscapeChar) ++ "\""

/-- json.dumps of one dict value: str and int serialize, bytes raise
TypeError (not JSON serializable). -/
def jDumpVal : PyVal → Except PyErr String
  | .str s => .ok (jDumpString s)
  | .int n => .ok (py_int_str n)
  | .bytes _ => .error .typeError

/-- json.dumps of one dict key: int keys are coerced to their decimal
string, bytes keys raise TypeError. -/
def jDumpKey : PyVal → Except PyErr String
  | .str s => .ok (jDumpString s)
  | .int n => .ok (jDumpString (py_int_str n))
  | .bytes _ => .error .typeError

/-- json.dumps of a parameter dict with the default separators. -/
def json_dumps (d : PyDict) : Except PyErr String := do
  let parts ← d.items.mapM fun kv => do
    let ks ← jDumpKey kv.1
    let vs ← jDumpVal kv.2
    pure (ks ++ ": " ++ vs)
  pure ("\x7b" ++ py_join ", " parts ++ "\x7d")

/-- Four hexadecimal digits read case-insensitively: their value and the
rest of the input. -/
def hexVal (c : Char) : Option Nat :=
  if 48 ≤ c.toNat ∧ c.toNat ≤ 57 then some (c.toNat - 48)
  else if 97 ≤ c.toNat ∧ c.toNat ≤ 102 then some (c.toNat - 87)
  else if 65 ≤ c.toNat ∧ c.toNat ≤ 70 then some (c.toNat - 55)
  else none

/-- Parse exactly four hexadecimal digits. -/
def parseU (cs : List Char) : Option (Nat × List Char) :=
  match cs with
  | a :: b :: c :: d :: r =>
    match hexVal a, hexVal b, hexVal c, hexVal d with
    | some x, some y, some z, some w => some (4096 * x + 256 * y + 16 * z + w, r)
    | _, _, _, _ => none
  | _ => none

/-- Decode one escape sequence after a backslash: the character and the
rest.  A unicode escape holding a high surrogate must be followed by a low
surrogate escape; the pair combines into one astral character.  A lone
surrogate is rejected here (Python would keep it as a lone surrogate code
point, which a Lean Char cannot hold; the serializer never emits one). -/
def parseEscape (cs : List Char) : Option (Char × List Char) :=
  match cs with
  | [] => none
  | e :: r =>
    if e = '"' then some ('"', r)
    else if e = '\\' then some ('\\', r)
    else if e = '/' then some ('/', r)
    else if e = 'b' then some (Char.ofNat 8, r)
    else if e = 'f' then some (Char.ofNat 12, r)
    else if e = 'n' then some ('\n', r)
    else if e = 'r' then some ('\r', r)
    else if e = 't' then some ('\t', r)
    else if e = 'u' then
      match parseU r with
      | none => none
      | some (n, r1) =>
        if 0xD800 ≤ n ∧ n ≤ 0xDBFF then
          match r1 with
          | b1 :: b2 :: r2 =>
            if b1 = '\\' ∧ b2 = 'u' then
              match parseU r2 with
              | some (m, r3) =>
                if 0xDC00 ≤ m ∧ m ≤ 0xDFFF then
                  some (Char.ofNat (0x10000 + 1024 * (n - 0xD800) + (m - 0xDC00)), r3)
                else none
              | none => none
            else none
          | _ => none
        else if 0xDC00 ≤ n ∧ n ≤ 0xDFFF then none
        else some (Char.ofNat n, r1)
    else none

/-- Body of a JSON string after the opening quote, with fuel bounding the
number of characters produced: the decoded characters and the input after
the closing quote.  Strict mode: an unescaped control character below
0x20 is an error. -/
def parseStringBody : Nat → List Char → Option (List Char × List Char)
  | 0, _ => none
  | _ + 1, [] => none
  | fuel + 1, c :: r =>
    if c = '"' then some ([], r)
    else if c = '\\' then
      match parseEscape r with
      | some (ch, r1) => (parseStringBody fuel r1).map fun p => (ch :: p.1, p.2)
      | none => none
    else if c.toNat < 32 then none
    else (parseStringBody fuel r).map fun p => (c :: p.1, p.2)

/-- A JSON string starting after its opening quote, fuelled by the input
length (an escape never produces more characters than it consumes). -/
def parseJString (cs : List Char) : Option (List Char × List Char) :=
  parseStringBody (cs.length + 1) cs

/-- A decimal digit character. -/
def py_isdigit (c : Char) : Bool := 48 ≤ c.toNat ∧ c.toNat ≤ 57

/-- The integer part of a JSON number: a zero, or a nonzero digit followed
by digits (leading zeros are not matched, as in Python's NUMBER_RE). -/
def parseIntPart (cs : List Char) : Option (List Char × List Char) :=
  match cs with
  | [] => none
  | c :: r =>
    if c = '0' then some (['0'], r)
    else if py_isdigit c then some (c :: r.takeWhile py_isdigit, r.dropWhile py_isdigit)
    else none

/-- Optional fraction part: a dot followed by at least one digit. -/
def parseFrac (cs : List Char) : List Char × List Char :=
  match cs with
  | c :: r =>
    if c = '.' then
      match r.takeWhile py_isdigit with
      | [] => ([], cs)
      | ds => ('.' :: ds, r.dropWhile py_isdigit)
    else ([], cs)
  | [] => ([], cs)

/-- Optional exponent part: e or E, an optional sign, at least one digit. -/
def parseExpPart (cs : List Char) : List Char × List Char :=
  match cs with
  | c :: r =>
    if c = 'e' ∨ c = 'E' then
      let (sg, r1) :=
        match r with
        | s :: r' => if s = '+' ∨ s = '-' then ([s], r') else (([] : List Char), r)
        | [] => ([], r)
      match r1.takeWhile py_isdigit with
      | [] => ([], cs)
      | ds => (c :: sg ++ ds, r1.dropWhile py_isdigit)
    else ([], cs)
  | [] => ([], cs)

/-- A signed number body: the integer part, then the optional fraction and
exponent, with the already-consumed sign prefixed to the literal. -/
def parseNumberTail (sign cs1 : List Char) : Option (Json × List Char) :=
  match parseIntPart cs1 with
  | none => none
  | some (ip, r1) =>
    let (fp, r2) := parseFrac r1
    let (ep, r3) := parseExpPart r2
    some (.numLit (String.mk (sign ++ ip ++ fp ++ ep)), r3)

/-- A JSON number as Python's NUMBER_RE matches it: the literal text. -/
def parseNumber (cs : List Char) : Option (Json × List Char) :=
  match cs with
  | c :: r => if c = '-' then parseNumberTail ['-'] r else parseNumberTail [] cs
  | [] => none

/-- JSON insignificant whitespace. -/
def jIsWs (c : Char) : Bool := c = ' ' ∨ c = '\t' ∨ c = '\n' ∨ c = '\r'

/-- Drop leading JSON whitespace. -/
def skipWs : List Char → List Char
  | [] => []
  | c :: r => if jIsWs c then skipWs r else c :: r

/-- Drop an expected literal word. -/
def dropLit (lit cs : List Char) : Option (List Char) :=
  if lit.isPrefixOf cs then some (cs.drop lit.length) else none

mutual

/-- A JSON value, with fuel bounding the recursion. -/
def parseValue : Nat → List Char → Option (Json × List Char)
  | 0, _ => none
  | fuel + 1, cs =>
    match skipWs cs with
    | [] => none
    | c :: r =>
      if c = '"' then (parseJString r).map fun p => (.str (String.mk p.1), p.2)
      else if c = '\x7b' then
        match skipWs r with
        | d :: r1 =>
          if d = '\x7d' then some (.obj [], r1)
          else (parseMembers fuel (d :: r1)).map fun p => (.obj p.1, p.2)
        | [] => none
      else if c = '[' then
        match skipWs r with
        | d :: r1 =>
          if d = ']' then some (.arr [], r1)
          else (parseElems fuel (d :: r1)).map fun p => (.arr p.1, p.2)
        | [] => none
      else if c = 't' then (dropLit ['r', 'u', 'e'] r).map fun r1 => (.bool true, r1)
      else if c = 'f' then (dropLit ['a', 'l', 's', 'e'] r).map fun r1 => (.bool false, r1)
      else if c = 'n' then (dropLit ['u', 'l', 'l'] r).map fun r1 => (.null, r1)
      else parseNumber (c :: r)

/-- The members of a JSON object after its opening brace, at least one. -/
def parseMembers : Nat → List Char → Option (List (String × Json) × List Char)
  | 0, _ => none
  | fuel + 1, cs =>
    match skipWs cs with
    | k :: r =>
      if k = '"' then
        match parseJString r with
        | none => none
        | some (kcs, r1) =>
          match skipWs r1 with
          | c2 :: r2 =>
            if c2 = ':' then
              match parseValue fuel r2 with
              | none => none
              | some (v, r3) =>
                match skipWs r3 with
                | c4 :: r4 =>
                  if c4 = ',' then
                    (parseMembers fuel r4).map fun p =>
                      ((String.mk kcs, v) :: p.1, p.2)
                  else if c4 = '\x7d' then some ([(String.mk kcs, v)], r4)
                  else none
                | [] => none
            else none
          | [] => none
      else none
    | [] => none

/-- The elements of a JSON array after its opening bracket, at least one. -/
def parseElems : Nat → List Char → Option (List Json × List Char)
  | 0, _ => none
  | fuel + 1, cs =>
    match parseValue fuel cs with
    | none => none
    | some (v, r) =>
      match skipWs r with
      | c :: r1 =>
        if c = ',' then (parseElems fuel r1).map fun p => (v :: p.1, p.2)
        else if c = ']' then some ([v], r1)
        else none
      | [] => none

end

/-- json.loads: parse one value, allow trailing whitespace, reject any
trailing data; none models the json.JSONDecodeError the parser raises. -/
def json_loads (s : String) : Option Json :=
  match parseValue (2 * s.data.length + 4) s.data with
  | some (j, rest) => if skipWs rest = [] then some j else none
  | none => none

/-!
Multipart encoding (encode_multipart_formdata, lines 142-170, and
get_content_type, lines 173-174) and the response post-processing shared
by post_multipart and non_multipart (lines 129-139 and 443-453).
-/

/-- The fixed, non-randomized boundary token. -/
def BOUNDARY : String := "----------ThIs_Is_tHe_bouNdaRY_$"

/-- The line separator of the multipart body. -/
def CRLF : String := "\r\n"

/-- Extension-based MIME lookup.  Modelled from the spec: the external
collaborator is "a MIME-type lookup table mapping filename extensions to
content types" (mimetypes.guess_type); the table here carries a
representative set of entries, none when the extension is unknown. -/
def mimetypes_guess_type (filename : String) : Option String :=
  match (filename.split (· = '.')).getLast? with
  | none => none
  | some ext =>
    let e := ext.map Char.toLower
    if filename.data.all (· ≠ '.') then none
    else if e = "jpg" ∨ e = "jpeg" then some "image/jpeg"
    else if e = "png" then some "image/png"
    else if e = "gif" then some "image/gif"
    else if e = "txt" then some "text/plain"
    else if e = "html" then some "text/html"
    else if e = "json" then some "application/json"
    else if e = "xml" then some "text/xml"
    else none

/-- get_content_type: the guessed MIME type, application/octet-stream when
the lookup knows nothing. -/
def get_content_type (filename : String) : String :=
  (mimetypes_guess_type filename).getD "application/octet-stream"

/-- The lines one regular form field contributes to the multipart body. -/
def fieldLines (kv : String × PyVal) : List String :=
  ["--" ++ BOUNDARY,
   "Content-Disposition: form-data; name=\"" ++ kv.1 ++ "\"",
   "",
   py_str kv.2]

/-- The lines one file field (name, filename, value) contributes. -/
def fileLines (kfv : String × String × PyVal) : List String :=
  ["--" ++ BOUNDARY,
   "Content-Disposition: form-data; name=\"" ++ kfv.1 ++ "\"; filename=\"" ++
     kfv.2.1 ++ "\"",
   "Content-Type: " ++ get_content_type kfv.2.1,
   "",
   py_str kfv.2.2]

/-- encode_multipart_formdata: the content type and the body, the body
being every field's lines, then every file's lines, then the closing
boundary marker and an empty line, joined with CRLF. -/
def encode_multipart_formdata (fields : List (String × PyVal))
    (files : List (String × String × PyVal)) : String × String :=
  let L := fields.flatMap fieldLines ++ files.flatMap fileLines ++
    ["--" ++ BOUNDARY ++ "--", ""]
  ("multipart/form-data; boundary=" ++ BOUNDARY, py_join CRLF L)

/-- A response content value after post-processing: the raw text or a
decoded JSON value. -/
inductive JContent where
  | raw (s : String)
  | parsed (j : Json)
deriving Repr

/-- The response post-processing of non_multipart and post_multipart
(lines 443-449 and 129-135): a declared JSON content type forces a JSON
parse; otherwise a GET body delimited by braces or by brackets is parsed
as JSON.  The json.loads calls are not guarded, so a parse failure is
raised to the caller. -/
def decode_content (contentType method content : String) : Except PyErr JContent :=
  if py_startswith contentType "application/json" then
    match json_loads content with
    | some j => .ok (.parsed j)
    | none => .error .jsonDecodeError
  else if method = "GET" ∧ py_startswith content "\x7b" ∧ py_endswith content "\x7d" then
    match json_loads content with
    | some j => .ok (.parsed j)
    | none => .error .jsonDecodeError
  else if method = "GET" ∧ py_startswith content "[" ∧ py_endswith content "]" then
    match json_loads content with
    | some j => .ok (.parsed j)
    | none => .error .jsonDecodeError
  else .ok (.raw content)

/-!
The request pipeline: add_accepts (lines 486-495), the body-encoding
branch and dispatch of _rest_invoke (lines 344-408, with httpcallback
None), and the request construction of non_multipart (lines 411-440 up to
the transport call).  URL splitting is delegated to urllib.parse in the
source (extract_scheme / extract_host / extract_path); the model takes the
already-split scheme, host and path as inputs.  The transport call itself
(httplib2) is the external boundary: the model returns the Request handed
to it.
-/

/-- What is handed to the httplib2 transport: the url parts, the method,
the body and the headers. -/
structure Request where
  scheme : String
  host : String
  path : String
  method : String
  body : String
  headers : PyDict
deriving Repr

/-- add_accepts: the Accept header becomes the comma-join of the accept
list when the list is non-empty, and */* otherwise, replacing any
caller-supplied Accept. -/
def add_accepts (accept : List String) (headers : PyDict) : PyDict :=
  if accept ≠ [] then headers.set (.str "Accept") (.str (py_join "," accept))
  else headers.set (.str "Accept") (.str "*/*")

/-- The request construction of non_multipart: for GET, Content-Length is
zero and non-empty encoded parameters move into the path as a query
string (after a question mark, appended directly to a path already ending
in one, or after an ampersand when the path already has a query); every
other method sends the encoded parameters as the body with their length
as Content-Length. -/
def non_multipart (params host method path : String) (headers : PyDict)
    (scheme : String) : Request :=
  if method = "GET" then
    let headers := headers.set (.str "Content-Length") (.str "0")
    if params ≠ "" then
      let path :=
        if ¬ path.data.contains '?' then path ++ "?" ++ params
        else if py_endswith path "?" then path ++ params
        else path ++ "&" ++ params
      { scheme, host, path, method, body := "", headers }
    else { scheme, host, path, method, body := params, headers }
  else
    let headers := headers.set (.str "Content-Length") (.str (natStrS (py_len params)))
    { scheme, host, path, method, body := params, headers }

/-- The body-encoding branch of _rest_invoke (lines 383-391): POST or PUT
without a caller Content-Type urlencodes the normalized parameters under
application/x-www-form-urlencoded; POST or PUT with Content-Type exactly
application/json serializes the raw parameter dict as JSON; everything
else (GET and DELETE included) urlencodes the normalized parameters. -/
def encodeParams (method : String) (params : PyDict) (headers : PyDict) :
    Except PyErr (PyDict × String) :=
  if (method = "POST" ∨ method = "PUT") ∧ ¬ headers.hasKey (.str "Content-Type") then do
    let headers := headers.set (.str "Content-Type")
      (.str "application/x-www-form-urlencoded")
    let fp ← fix_params params
    pure (headers, urlencode fp)
  else if (method = "POST" ∨ method = "PUT") ∧
      headers.lookup (.str "Content-Type") = some (.str "application/json") then do
    let s ← json_dumps params
    pure (headers, s)
  else do
    let fp ← fix_params params
    pure (headers, urlencode fp)

/-- _rest_invoke with httpcallback None: accepts are attached, the body is
encoded, and the request is built.  When files are present the source
calls unpack_params on params - by then a str, which has no keys method -
so every file-bearing call raises AttributeError at line 396 before any
request reaches the transport. -/
def rest_invoke_build (scheme host path method : String) (params : PyDict)
    (files : List (PyVal × PyVal)) (accept : List String) (headers : PyDict) :
    Except PyErr Request := do
  let headers := add_accepts accept headers
  let (headers, paramsStr) ← encodeParams method params headers
  if files ≠ [] then
    .error .attributeError
  else do
    let fh ← fix_headers headers
    pure (non_multipart paramsStr host method path fh scheme)

/-- A spawned thread of the threading module: constructing one does not
run it; only a start call would set it running. -/
structure PyThread where
  started : Bool
deriving Repr

/-- threading.Thread(target=_rest_invoke, args=...): the constructor
returns a thread that has not been started. -/
def thread_constructor : PyThread := { started := false }

/-- rest_invoke (lines 334-341): with do_async the source constructs a
Thread around _rest_invoke and returns None - no start call appears, and
the constructed thread is discarded; without do_async the request is
built and dispatched synchronously.  The result pairs what the caller
receives with the list of threads the call spawned. -/
def rest_invoke (scheme host path method : String) (params : PyDict)
    (files : List (PyVal × PyVal)) (accept : List String) (headers : PyDict)
    (do_async : Bool) : Option (Except PyErr Request) × List PyThread :=
  if do_async then (none, [thread_constructor])
  else (some (rest_invoke_build scheme host path method params files accept headers), [])

/-- A parameter value the JSON round-trip theorem covers: str or int. -/
def PyVal.isJsonScalar : PyVal → Bool
  | .str _ => true
  | .int _ => true
  | .bytes _ => false

/-- The JSON value json.loads recovers for one serialized scalar. -/
def pyScalarJson : PyVal → Json
  | .str s => .str s
  | .int n => .numLit (py_int_str n)
  | .bytes _ => .null

/-- The decoded object json.loads recovers from json.dumps of a dict with
str keys and scalar values, in entry order. -/
def pyItemsJson (items : List (PyVal × PyVal)) : List (String × Json) :=
  items.map fun kv => (py_str kv.1, pyScalarJson kv.2)

/-- The serialized text json.dumps produces for one dict item with a str
key and a scalar value. -/
def jItemText (kv : PyVal × PyVal) : String :=
  jDumpString (py_str kv.1) ++ ": " ++
    (match kv.2 with
     | .str s => jDumpString s
     | .int n => py_int_str n
     | .bytes _ => "")

/-- Every item of the dict has a str key and a str-or-int value. -/
def PyDict.strScalarItems (d : PyDict) : Bool :=
  d.entries.all fun e =>
    match e with
    | none => true
    | some (k, v) => k.isStr && v.isJsonScalar

/-! Helper lemmas. -/

theorem py_join_cons (sep x y : String) (t : List String) :
    py_join sep (x :: y :: t) = x ++ sep ++ py_join sep (y :: t) := rfl

theorem py_join_append (sep : String) (xs ys : List String) (hx : xs ≠ [])
    (hy : ys ≠ []) :
    py_join sep (xs ++ ys) = py_join sep xs ++ sep ++ py_join sep ys := by
  induction xs with
  | nil => exact absurd rfl hx
  | cons a t ih =>
    cases t with
    | nil =>
      cases ys with
      | nil => exact absurd rfl hy
      | cons b u => simp [py_join]
    | cons b u =>
      have h1 : (a :: b :: u) ++ ys = a :: b :: (u ++ ys) := rfl
      rw [h1, py_join_cons]
      have h2 : (b :: u) ++ ys = b :: (u ++ ys) := rfl
      rw [← h2, ih (by simp)]
      simp [py_join_cons, String.append_assoc]

theorem py_join_middle (sep : String) (A B C : List String) (hB : B ≠ [])
    (hC : C ≠ []) :
    ∃ pre, py_join sep (A ++ B ++ C) = pre ++ (py_join sep B ++ sep ++ py_join sep C) := by
  cases A with
  | nil =>
    refine ⟨"", ?_⟩
    rw [String.empty_append]
    have h1 : ([] : List String) ++ B ++ C = B ++ C := by simp
    rw [h1, py_join_append sep B C hB hC]
  | cons a t =>
    refine ⟨py_join sep (a :: t) ++ sep, ?_⟩
    have h1 : (a :: t) ++ B ++ C = (a :: t) ++ (B ++ C) := by simp
    rw [h1, py_join_append sep (a :: t) (B ++ C) (by simp)
      (by cases B with | nil => exact absurd rfl hB | cons b u => simp),
      py_join_append sep B C hB hC]

theorem lookupEntries_set_self (es : List PyEntry) (k v : PyVal) :
    lookupEntries (setEntries es k v) k = some v := by
  induction es with
  | nil => simp [setEntries, lookupEntries]
  | cons e t ih =>
    cases e with
    | none => simpa [setEntries, lookupEntries] using ih
    | some kv =>
      obtain ⟨k', v'⟩ := kv
      by_cases h : k' = k
      · simp [setEntries, lookupEntries, h]
      · simpa [setEntries, lookupEntries, h] using ih

theorem lookupEntries_set_ne (es : List PyEntry) (k k' v : PyVal) (h : k' ≠ k) :
    lookupEntries (setEntries es k' v) k = lookupEntries es k := by
  induction es with
  | nil => simp [setEntries, lookupEntries, h]
  | cons e t ih =>
    cases e with
    | none => simpa [setEntries, lookupEntries] using ih
    | some kv =>
      obtain ⟨k0, v0⟩ := kv
      by_cases h0 : k0 = k'
      · subst h0
        simp [setEntries, lookupEntries, h]
      · by_cases h1 : k0 = k
        · simp [setEntries, lookupEntries, h0, h1, Ne.symm h]
        · simpa [setEntries, lookupEntries, h0, h1] using ih

theorem PyDict.lookup_set_self (d : PyDict) (k v : PyVal) :
    (d.set k v).lookup k = some v := lookupEntries_set_self d.entries k v

theorem PyDict.lookup_set_ne (d : PyDict) (k k' v : PyVal) (h : k' ≠ k) :
    (d.set k' v).lookup k = d.lookup k := lookupEntries_set_ne d.entries k k' v h

theorem mem_of_lookupEntries (es : List PyEntry) (k w : PyVal)
    (h : lookupEntries es k = some w) : some (k, w) ∈ es := by
  induction es with
  | nil => simp [lookupEntries] at h
  | cons e t ih =>
    cases e with
    | none =>
      simp only [lookupEntries] at h
      exact List.mem_cons_of_mem _ (ih h)
    | some kv =>
      obtain ⟨k0, v0⟩ := kv
      by_cases h0 : k0 = k
      · subst h0
        simp only [lookupEntries, if_pos rfl] at h
        cases h
        exact List.mem_cons_self _ _
      · simp only [lookupEntries, if_neg h0] at h
        exact List.mem_cons_of_mem _ (ih h)

theorem lookupEntries_isSome_of_mem (es : List PyEntry) (k v : PyVal)
    (h : some (k, v) ∈ es) : ∃ w, lookupEntries es k = some w := by
  induction es with
  | nil => simp at h
  | cons e t ih =>
    cases e with
    | none =>
      rcases List.mem_cons.mp h with h1 | h1
      · exact absurd h1 (by simp)
      · simpa [lookupEntries] using ih h1
    | some kv =>
      obtain ⟨k0, v0⟩ := kv
      by_cases h0 : k0 = k
      · exact ⟨v0, by simp [lookupEntries, h0]⟩
      · rcases List.mem_cons.mp h with h1 | h1
        · cases h1
          exact absurd rfl h0
        · simpa [lookupEntries, h0] using ih h1

theorem allAsciiStr_entry (d : PyDict) (hA : d.allAsciiStr = true) (k v : PyVal)
    (h : some (k, v) ∈ d.entries) : asciiVal k = true ∧ asciiVal v = true := by
  have := (List.all_eq_true.mp hA) _ h
  simpa [Bool.and_eq_true] using this

theorem asciiVal_str (k : PyVal) (h : asciiVal k = true) :
    ∃ s, k = .str s ∧ s.data.all isAsciiChar = true := by
  cases k with
  | str s => exact ⟨s, rfl, by simpa [asciiVal] using h⟩
  | bytes b => simp [asciiVal] at h
  | int n => simp [asciiVal] at h

theorem firstLive_decomp (es : List PyEntry) (k : PyVal) (off : Nat)
    (h : firstLive es = some (k, off)) :
    ∃ pre v suf, es = pre ++ some (k, v) :: suf ∧ pre.length + 1 = off ∧
      (∀ e ∈ pre, e = none) ∧ es.drop off = suf := by
  induction es generalizing k off with
  | nil => simp [firstLive] at h
  | cons e t ih =>
    cases e with
    | none =>
      simp only [firstLive, Option.map_eq_some'] at h
      obtain ⟨⟨k0, off0⟩, h1, h2⟩ := h
      cases h2
      obtain ⟨pre, v, suf, he, hl, hn, hd⟩ := ih _ _ h1
      refine ⟨none :: pre, v, suf, by simp [he], by simp [hl], ?_, ?_⟩
      · intro e he'
        rcases List.mem_cons.mp he' with h3 | h3
        · exact h3
        · exact hn e h3
      · simpa using hd
    | some kv =>
      obtain ⟨k0, v0⟩ := kv
      simp only [firstLive] at h
      cases h
      exact ⟨[], v0, t, rfl, by simp, by simp, by simp⟩

theorem liveFrom_after_firstLive (es : List PyEntry) (k : PyVal) (off : Nat)
    (h : firstLive es = some (k, off)) :
    (es.filterMap id).length = ((es.drop off).filterMap id).length + 1 := by
  obtain ⟨pre, v, suf, he, _hl, hn, hd⟩ := firstLive_decomp es k off h
  have hpre : pre.filterMap id = [] := by
    apply List.filterMap_eq_nil_iff.mpr
    intro e he'
    rw [hn e he']
    rfl
  rw [he] at hd
  rw [he, hd, List.filterMap_append, hpre]
  simp

theorem firstLive_mem (es : List PyEntry) (k : PyVal) (off : Nat)
    (h : firstLive es = some (k, off)) : ∃ v, some (k, v) ∈ es := by
  obtain ⟨pre, v, suf, he, _, _, _⟩ := firstLive_decomp es k off h
  exact ⟨v, by rw [he]; simp⟩

theorem fpBody1_ascii (d : PyDict) (k : PyVal) (hk : asciiVal k = true) :
    fpBody1 d k = .ok d := by
  obtain ⟨s, rfl, hs⟩ := asciiVal_str k hk
  simp [fpBody1, py_encode_ascii, hs]

theorem fpBody2_ascii (d : PyDict) (k : PyVal) (w : PyVal)
    (hw : d.lookup k = some w) (hws : asciiVal w = true) :
    fpBody2 d k = .ok d := by
  obtain ⟨t, rfl, ht⟩ := asciiVal_str w hws
  simp [fpBody2, PyDict.get, hw, PyVal.isStr, PyVal.toStr, py_encode_ascii, ht,
    bind, Except.bind]

theorem fhBody_ascii (d : PyDict) (k : PyVal) (w : PyVal)
    (hk : asciiVal k = true) (hw : d.lookup k = some w) (hws : asciiVal w = true) :
    fhBody d k = .ok d := by
  obtain ⟨s, rfl, hs⟩ := asciiVal_str k hk
  obtain ⟨t, rfl, ht⟩ := asciiVal_str w hws
  simp [fhBody, PyDict.get, hw, PyVal.isStr, PyVal.toStr, py_encode_ascii, hs, ht,
    bind, Except.bind, pure, Except.pure]

theorem pyIterLoop_id (body : PyDict → PyVal → Except PyErr PyDict) (d : PyDict)
    (hbody : ∀ k w, d.lookup k = some w → body d k = .ok d) :
    ∀ f pos len, d.entries.length ≤ pos + f →
      ((d.entries.drop pos).filterMap id).length ≤ len →
      pyIterLoop body (f + 1) d pos len d.size = .ok d := by
  intro f
  induction f with
  | zero =>
    intro pos len hpos _hlen
    have hdrop : d.entries.drop pos = [] := List.drop_eq_nil_of_le (by omega)
    simp [pyIterLoop, nextKey, hdrop, firstLive, bind, Except.bind]
  | succ f ih =>
    intro pos len hpos hlen
    rcases hfl : firstLive (d.entries.drop pos) with _ | ⟨k, off⟩
    · simp [pyIterLoop, nextKey, hfl, bind, Except.bind]
    · have hmem0 := firstLive_mem _ _ _ hfl
      obtain ⟨v, hv⟩ := hmem0
      have hmem : some (k, v) ∈ d.entries := by
        have := List.mem_of_mem_drop hv
        exact this
      obtain ⟨w, hw⟩ := lookupEntries_isSome_of_mem d.entries k v hmem
      have hlive := liveFrom_after_firstLive _ _ _ hfl
      have hoff : 1 ≤ off ∧ off ≤ (d.entries.drop pos).length := by
        obtain ⟨pre, v', suf, he, hl, _, hd⟩ := firstLive_decomp _ _ _ hfl
        constructor
        · omega
        · have : (d.entries.drop pos).length = pre.length + 1 + suf.length := by
            rw [he]
            simp
            try omega
          omega
      have hlen0 : len ≠ 0 := by omega
      have hbodyk : body d k = .ok d := hbody k w hw
      have hdd : d.entries.drop (pos + off) = (d.entries.drop pos).drop off := by
        rw [List.drop_drop]
      have hrec : pyIterLoop body (f + 1) d (pos + off) (len - 1) d.size = .ok d := by
        apply ih
        · have := List.length_drop pos d.entries
          omega
        · rw [hdd]
          omega
      simp only [pyIterLoop, nextKey, if_neg (by omega : ¬ d.size ≠ d.size), hfl,
        if_neg hlen0, bind, Except.bind]
      rw [hbodyk]
      exact hrec

theorem allAscii_lookup (d : PyDict) (hA : d.allAsciiStr = true) (k w : PyVal)
    (hw : d.lookup k = some w) : asciiVal k = true ∧ asciiVal w = true :=
  allAsciiStr_entry d hA k w (mem_of_lookupEntries d.entries k w hw)

theorem fix_params_ascii (d : PyDict) (hA : d.allAsciiStr = true) :
    fix_params d = .ok d := by
  have h1 : pyIterLoop fpBody1 (3 * d.entries.length + 8) d 0 d.size d.size = .ok d := by
    have : 3 * d.entries.length + 8 = (3 * d.entries.length + 7) + 1 := by omega
    rw [this]
    apply pyIterLoop_id
    · intro k w hw
      exact fpBody1_ascii d k (allAscii_lookup d hA k w hw).1
    · omega
    · simp [PyDict.size]
  have h2 : pyIterLoop fpBody2 (d.entries.length + 8) d 0 d.size d.size = .ok d := by
    have : d.entries.length + 8 = (d.entries.length + 7) + 1 := by omega
    rw [this]
    apply pyIterLoop_id
    · intro k w hw
      exact fpBody2_ascii d k w hw (allAscii_lookup d hA k w hw).2
    · omega
    · simp [PyDict.size]
  simp only [fix_params, bind, Except.bind, h1]
  exact h2

theorem fix_headers_ascii (d : PyDict) (hA : d.allAsciiStr = true) :
    fix_headers d = .ok d := by
  have : 3 * d.entries.length + 8 = (3 * d.entries.length + 7) + 1 := by omega
  rw [fix_headers, this]
  apply pyIterLoop_id
  · intro k w hw
    obtain ⟨hk, hv⟩ := allAscii_lookup d hA k w hw
    exact fhBody_ascii d k w hk hw hv
  · omega
  · simp [PyDict.size]

theorem takeWhile_append_all (p : Char → Bool) (xs ys : List Char)
    (h : ∀ x ∈ xs, p x = true) :
    (xs ++ ys).takeWhile p = xs ++ ys.takeWhile p := by
  induction xs with
  | nil => simp
  | cons a t ih =>
    simp only [List.cons_append, List.takeWhile_cons, h a (by simp)]
    rw [ih (fun x hx => h x (by simp [hx]))]
    simp

theorem dropWhile_append_all (p : Char → Bool) (xs ys : List Char)
    (h : ∀ x ∈ xs, p x = true) :
    (xs ++ ys).dropWhile p = ys.dropWhile p := by
  induction xs with
  | nil => simp
  | cons a t ih =>
    simp only [List.cons_append, List.dropWhile_cons, h a (by simp)]
    rw [ih (fun x hx => h x (by simp [hx]))]
    simp

theorem char_toNat_valid (c : Char) :
    c.toNat < 0xD800 ∨ (0xE000 ≤ c.toNat ∧ c.toNat < 0x110000) := c.valid

theorem hexVal_hexDigitLower : ∀ m < 16, hexVal (hexDigitLower m) = some m := by
  decide

theorem parseU_jHex4 (n : Nat) (hn : n < 0x10000) (rest : List Char) :
    parseU (jHex4 n ++ rest) = some (n, rest) := by
  have h1 := hexVal_hexDigitLower (n / 4096 % 16) (by omega)
  have h2 := hexVal_hexDigitLower (n / 256 % 16) (by omega)
  have h3 := hexVal_hexDigitLower (n / 16 % 16) (by omega)
  have h4 := hexVal_hexDigitLower (n % 16) (by omega)
  have harith : 4096 * (n / 4096 % 16) + 256 * (n / 256 % 16) + 16 * (n / 16 % 16) +
      n % 16 = n := by omega
  simp [jHex4, parseU, h1, h2, h3, h4, harith]

theorem decDigit_isdigit : ∀ m < 10, py_isdigit (decDigit m) = true ∧ decDigit m ≠ 'e' ∧
    decDigit m ≠ 'E' ∧ decDigit m ≠ '.' ∧ decDigit m ≠ '-' := by
  decide

theorem natDigitsAux_fuel (f : Nat) : ∀ f' m, m < f → m < f' →
    natDigitsAux f m = natDigitsAux f' m := by
  induction f with
  | zero => omega
  | succ f ih =>
    intro f' m hf hf'
    cases f' with
    | zero => omega
    | succ f' =>
      simp only [natDigitsAux]
      by_cases h : m < 10
      · simp [h]
      · simp only [if_neg h]
        rw [ih f' (m / 10) (by omega) (by omega)]

theorem natDigits_eq (m : Nat) :
    natDigits m =
      if m < 10 then [decDigit m] else natDigits (m / 10) ++ [decDigit (m % 10)] := by
  have h1 : natDigits m =
      if m < 10 then [decDigit m] else natDigitsAux m (m / 10) ++ [decDigit (m % 10)] :=
    rfl
  by_cases h : m < 10
  · rw [h1, if_pos h, if_pos h]
  · rw [h1, if_neg h, if_neg h, natDigits,
      natDigitsAux_fuel m (m / 10 + 1) (m / 10) (by omega) (by omega)]

theorem natDigits_all_digit (m : Nat) : ∀ c ∈ natDigits m, py_isdigit c = true := by
  induction m using Nat.strong_induction_on with
  | _ m ih =>
    intro c hc
    by_cases h : m < 10
    · rw [natDigits_eq, if_pos h] at hc
      simp at hc
      subst hc
      exact (decDigit_isdigit m h).1
    · rw [natDigits_eq, if_neg h] at hc
      rcases List.mem_append.mp hc with h1 | h1
      · exact ih (m / 10) (Nat.div_lt_self (by omega) (by omega)) c h1
      · simp at h1
        subst h1
        exact (decDigit_isdigit (m % 10) (by omega)).1

theorem decDigit_ne_zero : ∀ m < 10, 1 ≤ m → decDigit m ≠ '0' := by
  decide

theorem natDigits_cons (m : Nat) :
    ∃ c t, natDigits m = c :: t ∧ (1 ≤ m → c ≠ '0') ∧ py_isdigit c = true := by
  induction m using Nat.strong_induction_on with
  | _ m ih =>
    by_cases h : m < 10
    · refine ⟨decDigit m, [], by rw [natDigits_eq, if_pos h], ?_, (decDigit_isdigit m h).1⟩
      intro h1
      exact decDigit_ne_zero m h h1
    · obtain ⟨c, t, he, h0, hd⟩ := ih (m / 10) (Nat.div_lt_self (by omega) (by omega))
      refine ⟨c, t ++ [decDigit (m % 10)], ?_, ?_, hd⟩
      · rw [natDigits_eq, if_neg h, he]
        simp
      · intro _
        exact h0 (by omega)

theorem digit_ne_of_out (c : Char) (h48 : 48 ≤ c.toNat) (h57 : c.toNat ≤ 57) :
    ∀ d : Char, (d.toNat < 48 ∨ 57 < d.toNat) → c ≠ d := by
  intro d hd he
  subst he
  omega

theorem digit_facts (c : Char) (h : py_isdigit c = true) :
    c ≠ '-' ∧ c ≠ '"' ∧ c ≠ '\x7b' ∧ c ≠ '[' ∧ c ≠ 't' ∧ c ≠ 'f' ∧ c ≠ 'n' ∧
      c ≠ '.' ∧ c ≠ 'e' ∧ c ≠ 'E' ∧ jIsWs c = false := by
  have h1 : 48 ≤ c.toNat ∧ c.toNat ≤ 57 := by
    simpa [py_isdigit, decide_eq_true_eq] using h
  have hne := digit_ne_of_out c h1.1 h1.2
  refine ⟨hne '-' (by decide), hne '"' (by decide), hne '\x7b' (by decide),
    hne '[' (by decide), hne 't' (by decide), hne 'f' (by decide),
    hne 'n' (by decide), hne '.' (by decide), hne 'e' (by decide),
    hne 'E' (by decide), ?_⟩
  simp [jIsWs, hne ' ' (by decide), hne '\t' (by decide), hne '\n' (by decide),
    hne '\r' (by decide)]

theorem takeWhile_head_stop (p : Char → Bool) (rest : List Char)
    (h : ∀ c, rest.head? = some c → p c = false) :
    rest.takeWhile p = [] ∧ rest.dropWhile p = rest := by
  cases rest with
  | nil => simp
  | cons c r =>
    have := h c rfl
    simp [List.takeWhile_cons, List.dropWhile_cons, this]


theorem parseNumberTail_digits (sign ds : List Char) (c : Char) (rest : List Char)
    (hds : ∀ x ∈ c :: ds, py_isdigit x = true) (hc0 : c = '0' → ds = [])
    (hrest : ∀ x, rest.head? = some x →
      py_isdigit x = false ∧ x ≠ '.' ∧ x ≠ 'e' ∧ x ≠ 'E') :
    parseNumberTail sign ((c :: ds) ++ rest) =
      some (.numLit (String.mk (sign ++ c :: ds)), rest) := by
  have hcd : py_isdigit c = true := hds c (by simp)
  have hstop := takeWhile_head_stop py_isdigit rest (fun x hx => (hrest x hx).1)
  have hfrac : parseFrac rest = ([], rest) := by
    cases rest with
    | nil => rfl
    | cons x r =>
      have := (hrest x rfl).2.1
      simp [parseFrac, this]
  have hexp : parseExpPart rest = ([], rest) := by
    cases rest with
    | nil => rfl
    | cons x r =>
      have h1 := (hrest x rfl).2.2.1
      have h2 := (hrest x rfl).2.2.2
      simp [parseExpPart, h1, h2]
  by_cases hc : c = '0'
  · subst hc
    rw [hc0 rfl]
    simp [parseNumberTail, parseIntPart, hfrac, hexp]
  · have htw : (ds ++ rest).takeWhile py_isdigit = ds := by
      rw [takeWhile_append_all py_isdigit ds rest (fun x hx => hds x (by simp [hx])),
        hstop.1, List.append_nil]
    have hdw : (ds ++ rest).dropWhile py_isdigit = rest := by
      rw [dropWhile_append_all py_isdigit ds rest (fun x hx => hds x (by simp [hx])),
        hstop.2]
    simp [parseNumberTail, parseIntPart, hc, hcd, htw, hdw, hfrac, hexp]

theorem parseNumber_int (n : Int) (rest : List Char)
    (hrest : ∀ x, rest.head? = some x →
      py_isdigit x = false ∧ x ≠ '.' ∧ x ≠ 'e' ∧ x ≠ 'E') :
    parseNumber ((py_int_str n).data ++ rest) = some (.numLit (py_int_str n), rest) := by
  by_cases hn : n < 0
  · obtain ⟨c, t, he, h0, hd⟩ := natDigits_cons (-n).toNat
    have hm : 1 ≤ (-n).toNat := by omega
    have hdata : (py_int_str n).data = '-' :: c :: t := by
      rw [py_int_str, if_pos hn, String.data_append, natStrS, he]
      rfl
    have hall : ∀ x ∈ c :: t, py_isdigit x = true := by
      rw [← he]
      exact natDigits_all_digit _
    rw [hdata]
    have h1 : (('-' :: c :: t) ++ rest) = '-' :: ((c :: t) ++ rest) := rfl
    rw [h1]
    simp only [parseNumber, if_pos rfl]
    rw [parseNumberTail_digits ['-'] t c rest hall (fun h => absurd h (h0 hm)) hrest]
    have : String.mk ('-' :: c :: t) = py_int_str n := by
      rw [py_int_str, if_pos hn, natStrS, he]
      rfl
    rw [← this]
    rfl
  · obtain ⟨c, t, he, h0, hd⟩ := natDigits_cons n.toNat
    have hdata : (py_int_str n).data = c :: t := by
      rw [py_int_str, if_neg hn, natStrS, he]
    have hall : ∀ x ∈ c :: t, py_isdigit x = true := by
      rw [← he]
      exact natDigits_all_digit _
    rw [hdata]
    have hcm : c ≠ '-' := (digit_facts c (hall c (by simp))).1
    simp only [parseNumber, List.cons_append, if_neg hcm]
    have h1 : (c :: (t ++ rest)) = (c :: t) ++ rest := rfl
    rw [h1]
    have hc0 : c = '0' → t = [] := by
      intro hc
      by_cases hz : 1 ≤ n.toNat
      · exact absurd hc (h0 hz)
      · have : n.toNat = 0 := by omega
        rw [this] at he
        have : natDigits 0 = ['0'] := by decide
        rw [this] at he
        cases he
        rfl
    rw [parseNumberTail_digits [] t c rest hall hc0 hrest]
    have : String.mk ([] ++ c :: t) = py_int_str n := by
      rw [py_int_str, if_neg hn, natStrS, he]
      rfl
    rw [this]

theorem char_eq_of_toNat (c : Char) (n : Nat) (h : c.toNat = n) : Char.ofNat n = c := by
  rw [← h]
  exact Char.ofNat_toNat c

theorem parseEscape_quote (r : List Char) : parseEscape ('"' :: r) = some ('"', r) := rfl

theorem parseEscape_backslash (r : List Char) :
    parseEscape ('\\' :: r) = some ('\\', r) := rfl

theorem parseEscape_n (r : List Char) : parseEscape ('n' :: r) = some ('\n', r) := rfl

theorem parseEscape_t (r : List Char) : parseEscape ('t' :: r) = some ('\t', r) := rfl

theorem parseEscape_r (r : List Char) : parseEscape ('r' :: r) = some ('\x0d', r) := rfl

theorem parseEscape_b (r : List Char) : parseEscape ('b' :: r) = some ('\x08', r) := rfl

theorem parseEscape_f (r : List Char) : parseEscape ('f' :: r) = some ('\x0c', r) := rfl

theorem parseEscape_u_single (r : List Char) (n : Nat) (r1 : List Char)
    (h : parseU r = some (n, r1)) (h1 : ¬ (0xD800 ≤ n ∧ n ≤ 0xDBFF))
    (h2 : ¬ (0xDC00 ≤ n ∧ n ≤ 0xDFFF)) :
    parseEscape ('u' :: r) = some (Char.ofNat n, r1) := by
  simp [parseEscape, h, h1, h2]

theorem parseEscape_u_pair (r : List Char) (n : Nat) (r2 : List Char) (m : Nat)
    (r3 : List Char) (h : parseU r = some (n, '\\' :: 'u' :: r2))
    (hn : 0xD800 ≤ n ∧ n ≤ 0xDBFF) (hu : parseU r2 = some (m, r3))
    (hm : 0xDC00 ≤ m ∧ m ≤ 0xDFFF) :
    parseEscape ('u' :: r) =
      some (Char.ofNat (0x10000 + 1024 * (n - 0xD800) + (m - 0xDC00)), r3) := by
  simp [parseEscape, h, hn, hu, hm]

theorem parseStringBody_esc (f : Nat) (r : List Char) (ch : Char) (r1 : List Char)
    (h : parseEscape r = some (ch, r1)) :
    parseStringBody (f + 1) ('\\' :: r) =
      (parseStringBody f r1).map fun p => (ch :: p.1, p.2) := by
  simp [parseStringBody, h]

theorem parseStringBody_lit (f : Nat) (c : Char) (r : List Char) (h1 : c ≠ '"')
    (h2 : c ≠ '\\') (h3 : ¬ c.toNat < 32) :
    parseStringBody (f + 1) (c :: r) =
      (parseStringBody f r).map fun p => (c :: p.1, p.2) := by
  simp [parseStringBody, h1, h2, h3]

theorem parseStringBody_dump (s : List Char) : ∀ f rest, s.length + 1 ≤ f →
    parseStringBody f (s.flatMap jEscapeChar ++ '"' :: rest) = some (s, rest) := by
  induction s with
  | nil =>
    intro f rest hf
    cases f with
    | zero => omega
    | succ f => rfl
  | cons c t ih =>
    intro f rest hf
    cases f with
    | zero => simp at hf
    | succ f =>
    have hrec := ih f rest (by simp at hf ⊢; omega)
    have hflat : (c :: t).flatMap jEscapeChar ++ '"' :: rest =
        jEscapeChar c ++ (t.flatMap jEscapeChar ++ '"' :: rest) := by
      simp
    rw [hflat]
    by_cases h1 : c = '"'
    · subst h1
      rw [show jEscapeChar '"' = ['\\', '"'] from rfl]
      rw [show (['\\', '"'] : List Char) ++ (t.flatMap jEscapeChar ++ '"' :: rest) =
        '\\' :: '"' :: (t.flatMap jEscapeChar ++ '"' :: rest) from rfl]
      rw [parseStringBody_esc f _ _ _ (parseEscape_quote _), hrec]
      rfl
    · by_cases h2 : c = '\\'
      · subst h2
        rw [show jEscapeChar '\\' = ['\\', '\\'] from rfl]
        rw [show (['\\', '\\'] : List Char) ++ (t.flatMap jEscapeChar ++ '"' :: rest) =
          '\\' :: '\\' :: (t.flatMap jEscapeChar ++ '"' :: rest) from rfl]
        rw [parseStringBody_esc f _ _ _ (parseEscape_backslash _), hrec]
        rfl
      · by_cases h3 : 32 ≤ c.toNat ∧ c.toNat ≤ 126
        · rw [jEscapeChar, if_neg h1, if_neg h2, if_pos h3]
          rw [show ([c] : List Char) ++ (t.flatMap jEscapeChar ++ '"' :: rest) =
            c :: (t.flatMap jEscapeChar ++ '"' :: rest) from rfl]
          rw [parseStringBody_lit f c _ h1 h2 (by omega), hrec]
          rfl
        · by_cases h4 : c = '\n'
          · subst h4
            rw [show jEscapeChar '\n' = ['\\', 'n'] from by simp [jEscapeChar]]
            rw [show (['\\', 'n'] : List Char) ++ (t.flatMap jEscapeChar ++ '"' :: rest) =
              '\\' :: 'n' :: (t.flatMap jEscapeChar ++ '"' :: rest) from rfl]
            rw [parseStringBody_esc f _ _ _ (parseEscape_n _), hrec]
            rfl
          · by_cases h5 : c = '\t'
            · subst h5
              rw [show jEscapeChar '\t' = ['\\', 't'] from by simp [jEscapeChar]]
              rw [show (['\\', 't'] : List Char) ++ (t.flatMap jEscapeChar ++ '"' :: rest) =
                '\\' :: 't' :: (t.flatMap jEscapeChar ++ '"' :: rest) from rfl]
              rw [parseStringBody_esc f _ _ _ (parseEscape_t _), hrec]
              rfl
            · by_cases h6 : c = '\x0d'
              · subst h6
                rw [show jEscapeChar '\x0d' = ['\\', 'r'] from by simp [jEscapeChar]]
                rw [show (['\\', 'r'] : List Char) ++ (t.flatMap jEscapeChar ++ '"' :: rest) =
                  '\\' :: 'r' :: (t.flatMap jEscapeChar ++ '"' :: rest) from rfl]
                rw [parseStringBody_esc f _ _ _ (parseEscape_r _), hrec]
                rfl
              · by_cases h7 : c.toNat = 8
                · have hc : c = '\x08' := by
                    rw [← char_eq_of_toNat c 8 h7]
                  subst hc
                  rw [show jEscapeChar '\x08' = ['\\', 'b'] from by simp [jEscapeChar]]
                  rw [show (['\\', 'b'] : List Char) ++ (t.flatMap jEscapeChar ++ '"' :: rest) =
                    '\\' :: 'b' :: (t.flatMap jEscapeChar ++ '"' :: rest) from rfl]
                  rw [parseStringBody_esc f _ _ _ (parseEscape_b _), hrec]
                  rfl
                · by_cases h8 : c.toNat = 12
                  · have hc : c = '\x0c' := by
                      rw [← char_eq_of_toNat c 12 h8]
                    subst hc
                    rw [show jEscapeChar '\x0c' = ['\\', 'f'] from by simp [jEscapeChar]]
                    rw [show (['\\', 'f'] : List Char) ++ (t.flatMap jEscapeChar ++ '"' :: rest) =
                      '\\' :: 'f' :: (t.flatMap jEscapeChar ++ '"' :: rest) from rfl]
                    rw [parseStringBody_esc f _ _ _ (parseEscape_f _), hrec]
                    rfl
                  · have hv := char_toNat_valid c
                    by_cases h9 : c.toNat < 0x10000
                    · rw [jEscapeChar, if_neg h1, if_neg h2, if_neg h3, if_neg h4,
                        if_neg h5, if_neg h6, if_neg h7, if_neg h8, if_pos h9]
                      rw [show ('\\' :: 'u' :: jHex4 c.toNat) ++
                          (t.flatMap jEscapeChar ++ '"' :: rest) =
                        '\\' :: 'u' :: (jHex4 c.toNat ++
                          (t.flatMap jEscapeChar ++ '"' :: rest)) from by simp]
                      rw [parseStringBody_esc f _ _ _ (parseEscape_u_single _ c.toNat _
                        (parseU_jHex4 c.toNat h9 _) (by omega) (by omega))]
                      rw [Char.ofNat_toNat, hrec]
                      rfl
                    · rw [jEscapeChar, if_neg h1, if_neg h2, if_neg h3, if_neg h4,
                        if_neg h5, if_neg h6, if_neg h7, if_neg h8, if_neg h9]
                      have hhi : 0xD800 + (c.toNat - 0x10000) / 1024 < 0x10000 := by
                        omega
                      have hlo : 0xDC00 + (c.toNat - 0x10000) % 1024 < 0x10000 := by
                        omega
                      rw [show ('\\' :: 'u' :: jHex4 (0xD800 + (c.toNat - 0x10000) / 1024)) ++
                          ('\\' :: 'u' :: jHex4 (0xDC00 + (c.toNat - 0x10000) % 1024)) ++
                          (t.flatMap jEscapeChar ++ '"' :: rest) =
                        '\\' :: 'u' :: (jHex4 (0xD800 + (c.toNat - 0x10000) / 1024) ++
                          ('\\' :: 'u' :: (jHex4 (0xDC00 + (c.toNat - 0x10000) % 1024) ++
                            (t.flatMap jEscapeChar ++ '"' :: rest)))) from by simp]
                      rw [parseStringBody_esc f _ _ _ (parseEscape_u_pair _ _ _ _ _
                        (parseU_jHex4 _ hhi _) (by omega) (parseU_jHex4 _ hlo _) (by omega))]
                      rw [show 0x10000 + 1024 * (0xD800 + (c.toNat - 0x10000) / 1024 - 0xD800) +
                          (0xDC00 + (c.toNat - 0x10000) % 1024 - 0xDC00) = c.toNat from by omega]
                      rw [Char.ofNat_toNat, hrec]
                      rfl

theorem jEscapeChar_len (c : Char) : 1 ≤ (jEscapeChar c).length := by
  rw [jEscapeChar]
  repeat' split
  all_goals simp

theorem flatMap_jEscape_len (s : List Char) :
    s.length ≤ (s.flatMap jEscapeChar).length := by
  induction s with
  | nil => simp
  | cons c t ih =>
    have := jEscapeChar_len c
    simp only [List.flatMap_cons, List.length_append, List.length_cons]
    omega

theorem parseJString_dump (s rest : List Char) :
    parseJString (s.flatMap jEscapeChar ++ '"' :: rest) = some (s, rest) := by
  rw [parseJString]
  apply parseStringBody_dump
  have := flatMap_jEscape_len s
  simp only [List.length_append, List.length_cons]
  omega

theorem string_mk_data (s : String) : String.mk s.data = s := rfl

theorem jDumpString_data (s : String) :
    (jDumpString s).data = '"' :: (s.data.flatMap jEscapeChar ++ ['"']) := by
  rw [jDumpString, String.data_append, String.data_append]
  rfl

theorem skipWs_not (c : Char) (r : List Char) (h : jIsWs c = false) :
    skipWs (c :: r) = c :: r := by
  simp [skipWs, h]

theorem skipWs_space (r : List Char) : skipWs (' ' :: r) = skipWs r := by
  simp [skipWs, jIsWs]

theorem parseValue_quote (f : Nat) (r : List Char) :
    parseValue (f + 1) ('"' :: r) =
      (parseJString r).map fun p => (Json.str (String.mk p.1), p.2) := by
  simp [parseValue, skipWs, jIsWs]

theorem parseValue_space (f : Nat) (r : List Char) :
    parseValue (f + 1) (' ' :: r) = parseValue (f + 1) r := by
  simp only [parseValue]
  rw [skipWs_space]

theorem parseMembers_space (f : Nat) (r : List Char) :
    parseMembers (f + 1) (' ' :: r) = parseMembers (f + 1) r := by
  simp only [parseMembers]
  rw [skipWs_space]

theorem parseValue_num (f : Nat) (c : Char) (r : List Char)
    (h : py_isdigit c = true ∨ c = '-') :
    parseValue (f + 1) (c :: r) = parseNumber (c :: r) := by
  rcases h with h | h
  · obtain ⟨hm, hq, hb, hk, ht, hf', hn, _, _, _, hw⟩ := digit_facts c h
    simp only [parseValue]
    rw [skipWs_not c r hw]
    simp [hq, hb, hk, ht, hf', hn]
  · subst h
    simp [parseValue, skipWs, jIsWs]

theorem parseValue_str_dump (f : Nat) (s : String) (rest : List Char) :
    parseValue (f + 1) ((jDumpString s).data ++ rest) = some (.str s, rest) := by
  rw [jDumpString_data]
  rw [show ('"' :: (s.data.flatMap jEscapeChar ++ ['"'])) ++ rest =
    '"' :: (s.data.flatMap jEscapeChar ++ '"' :: rest) from by simp]
  rw [parseValue_quote, parseJString_dump]
  simp [string_mk_data]

theorem parseValue_int_dump (f : Nat) (n : Int) (rest : List Char)
    (hrest : ∀ x, rest.head? = some x →
      py_isdigit x = false ∧ x ≠ '.' ∧ x ≠ 'e' ∧ x ≠ 'E') :
    parseValue (f + 1) ((py_int_str n).data ++ rest) = some (.numLit (py_int_str n), rest) := by
  have hnum := parseNumber_int n rest hrest
  by_cases hn : n < 0
  · obtain ⟨c, t, he, h0, hd⟩ := natDigits_cons (-n).toNat
    have hdata : (py_int_str n).data = '-' :: c :: t := by
      rw [py_int_str, if_pos hn, String.data_append, natStrS, he]
      rfl
    rw [hdata] at hnum ⊢
    rw [show (('-' :: c :: t) ++ rest) = '-' :: ((c :: t) ++ rest) from rfl] at hnum ⊢
    rw [parseValue_num f '-' _ (Or.inr rfl)]
    exact hnum
  · obtain ⟨c, t, he, h0, hd⟩ := natDigits_cons n.toNat
    have hdata : (py_int_str n).data = c :: t := by
      rw [py_int_str, if_neg hn, natStrS, he]
    rw [hdata] at hnum ⊢
    rw [show ((c :: t) ++ rest) = c :: (t ++ rest) from rfl] at hnum ⊢
    rw [parseValue_num f c _ (Or.inl hd)]
    exact hnum

theorem parseValue_scalar (f : Nat) (v : PyVal) (hv : v.isJsonScalar = true)
    (rest : List Char)
    (hrest : ∀ x, rest.head? = some x →
      py_isdigit x = false ∧ x ≠ '.' ∧ x ≠ 'e' ∧ x ≠ 'E') :
    parseValue (f + 1)
        ((match v with
          | .str s => jDumpString s
          | .int n => py_int_str n
          | .bytes _ => "").data ++ rest) =
      some (pyScalarJson v, rest) := by
  cases v with
  | str s => exact parseValue_str_dump f s rest
  | int n => exact parseValue_int_dump f n rest hrest
  | bytes b => simp [PyVal.isJsonScalar] at hv

theorem parseMembers_unfold (f : Nat) (s : String) (r2 : List Char) :
    parseMembers (f + 1) ('"' :: (s.data.flatMap jEscapeChar ++ '"' :: ':' :: r2)) =
      (match parseValue f r2 with
       | none => none
       | some (v, r3) =>
         match skipWs r3 with
         | c4 :: r4 =>
           if c4 = ',' then (parseMembers f r4).map fun p => ((s, v) :: p.1, p.2)
           else if c4 = '\x7d' then some ([(s, v)], r4)
           else none
         | [] => none) := by
  conv_lhs => rw [parseMembers]
  rw [skipWs_not '"' _ (by decide)]
  simp only [reduceIte]
  rw [parseJString_dump]
  simp only [string_mk_data]
  rw [skipWs_not ':' _ (by decide)]
  simp only [reduceIte]

theorem parseMembers_dump (ps : List (PyVal × PyVal)) :
    ∀ f rest, (∀ kv ∈ ps, kv.1.isStr = true ∧ kv.2.isJsonScalar = true) →
      ps ≠ [] → ps.length + 1 ≤ f →
      parseMembers f ((py_join ", " (ps.map jItemText)).data ++ '\x7d' :: rest) =
        some (pyItemsJson ps, rest) := by
  induction ps with
  | nil =>
    intro f rest _ h _
    exact absurd rfl h
  | cons kv t ih =>
    intro f rest hall _hne hf
    obtain ⟨k, v⟩ := kv
    obtain ⟨hk, hv⟩ := hall (k, v) (by simp)
    obtain ⟨s, rfl⟩ : ∃ s, k = .str s := by
      cases k with
      | str s => exact ⟨s, rfl⟩
      | bytes b => simp [PyVal.isStr] at hk
      | int n => simp [PyVal.isStr] at hk
    cases f with
    | zero => omega
    | succ f =>
    cases f with
    | zero =>
      simp at hf
    | succ g =>
    cases t with
    | nil =>
      have hX : (py_join ", " ([(PyVal.str s, v)].map jItemText)).data ++ '\x7d' :: rest =
          '"' :: (s.data.flatMap jEscapeChar ++ '"' :: ':' ::
            (' ' :: ((match v with
              | .str u => jDumpString u
              | .int n => py_int_str n
              | .bytes _ => "").data ++ '\x7d' :: rest))) := by
        simp [py_join, jItemText, jDumpString_data, String.data_append, py_str]
      rw [hX, parseMembers_unfold]
      rw [parseValue_space, parseValue_scalar g v hv _
        (fun x hx => by
          simp at hx
          subst hx
          exact ⟨by decide, by decide, by decide, by decide⟩)]
      simp [skipWs, jIsWs, pyItemsJson, py_str]
    | cons y u =>
      have hrec := ih (g + 1) rest (fun kv hkv => hall kv (by simp [hkv]))
        (by simp) (by simp at hf ⊢; omega)
      have hX : (py_join ", " (((PyVal.str s, v) :: y :: u).map jItemText)).data ++
            '\x7d' :: rest =
          '"' :: (s.data.flatMap jEscapeChar ++ '"' :: ':' ::
            (' ' :: ((match v with
              | .str w => jDumpString w
              | .int n => py_int_str n
              | .bytes _ => "").data ++ ',' ::
              (' ' :: ((py_join ", " ((y :: u).map jItemText)).data ++ '\x7d' :: rest))))) := by
        simp [py_join, jItemText, jDumpString_data, String.data_append, py_str]
      rw [hX, parseMembers_unfold]
      rw [parseValue_space, parseValue_scalar g v hv _
        (fun x hx => by
          simp at hx
          subst hx
          exact ⟨by decide, by decide, by decide, by decide⟩)]
      simp [skipWs, jIsWs]
      refine ⟨pyItemsJson (y :: u), ?_, ?_⟩
      · simpa using hrec
      · simp [pyItemsJson, py_str]

theorem strScalar_item (d : PyDict) (h : d.strScalarItems = true) :
    ∀ kv ∈ d.items, kv.1.isStr = true ∧ kv.2.isJsonScalar = true := by
  intro kv hkv
  have hmem : some kv ∈ d.entries := by
    rw [PyDict.items] at hkv
    obtain ⟨e, he, hee⟩ := List.mem_filterMap.mp hkv
    cases e with
    | none => simp at hee
    | some kv' =>
      simp at hee
      subst hee
      exact he
  have := (List.all_eq_true.mp h) _ hmem
  obtain ⟨k, v⟩ := kv
  simpa [Bool.and_eq_true] using this

theorem mapM_jItemText (l : List (PyVal × PyVal))
    (h : ∀ kv ∈ l, kv.1.isStr = true ∧ kv.2.isJsonScalar = true) :
    (l.mapM fun kv => do
      let ks ← jDumpKey kv.1
      let vs ← jDumpVal kv.2
      pure (ks ++ ": " ++ vs) : Except PyErr (List String)) = .ok (l.map jItemText) := by
  induction l with
  | nil => rfl
  | cons kv t ih =>
    obtain ⟨k, v⟩ := kv
    obtain ⟨hk, hv⟩ := h (k, v) (by simp)
    obtain ⟨s, rfl⟩ : ∃ s, k = .str s := by
      cases k with
      | str s => exact ⟨s, rfl⟩
      | bytes b => simp [PyVal.isStr] at hk
      | int n => simp [PyVal.isStr] at hk
    have hrec := ih (fun kv hkv => h kv (by simp [hkv]))
    cases v with
    | str u =>
      simp only [List.mapM_cons, hrec]
      simp [jDumpKey, jDumpVal, jItemText, py_str, bind, Except.bind, pure, Except.pure]
    | int n =>
      simp only [List.mapM_cons, hrec]
      simp [jDumpKey, jDumpVal, jItemText, py_str, bind, Except.bind, pure, Except.pure]
    | bytes b => simp [PyVal.isJsonScalar] at hv

theorem json_dumps_eq (d : PyDict) (h : d.strScalarItems = true) :
    json_dumps d = .ok ("\x7b" ++ py_join ", " (d.items.map jItemText) ++ "\x7d") := by
  rw [json_dumps]
  rw [mapM_jItemText d.items (strScalar_item d h)]
  rfl

theorem jItemText_data_cons (kv : PyVal × PyVal) :
    ∃ t, (jItemText kv).data = '"' :: t := by
  rw [jItemText, String.data_append, String.data_append, jDumpString_data]
  exact ⟨_, rfl⟩

theorem py_join_data_len (sep : String) (parts : List String)
    (h : ∀ p ∈ parts, 1 ≤ p.data.length) :
    parts.length ≤ (py_join sep parts).data.length := by
  induction parts with
  | nil => simp
  | cons a t ih =>
    cases t with
    | nil =>
      have := h a (by simp)
      simpa [py_join] using this
    | cons b u =>
      have ha := h a (by simp)
      have ht := ih (fun p hp => h p (by simp at hp ⊢; tauto))
      rw [py_join_cons, String.data_append, String.data_append]
      simp only [List.length_append, List.length_cons] at ht ⊢
      omega

theorem py_join_items_head (parts : List String) (hne : parts ≠ [])
    (h : ∀ p ∈ parts, ∃ t, p.data = '"' :: t) :
    ∃ t, (py_join ", " parts).data = '"' :: t := by
  cases parts with
  | nil => exact absurd rfl hne
  | cons a u =>
    obtain ⟨t, ht⟩ := h a (by simp)
    cases u with
    | nil => exact ⟨t, ht⟩
    | cons b w =>
      rw [py_join_cons, String.data_append, String.data_append, ht]
      exact ⟨_, rfl⟩

theorem parseValue_obj_dump (ps : List (PyVal × PyVal)) (f : Nat) (rest : List Char)
    (hall : ∀ kv ∈ ps, kv.1.isStr = true ∧ kv.2.isJsonScalar = true)
    (hne : ps ≠ []) (hf : ps.length + 2 ≤ f) :
    parseValue f ('\x7b' :: ((py_join ", " (ps.map jItemText)).data ++ '\x7d' :: rest)) =
      some (.obj (pyItemsJson ps), rest) := by
  cases f with
  | zero => omega
  | succ g =>
  obtain ⟨t, ht⟩ := py_join_items_head (ps.map jItemText)
    (by simpa using hne)
    (by
      intro p hp
      obtain ⟨kv, _, rfl⟩ := List.mem_map.mp hp
      exact jItemText_data_cons kv)
  simp only [parseValue]
  rw [skipWs_not '\x7b' _ (by decide)]
  simp only [reduceIte]
  rw [ht]
  rw [show ('"' :: t) ++ '\x7d' :: rest = '"' :: (t ++ '\x7d' :: rest) from rfl]
  rw [skipWs_not '"' _ (by decide)]
  simp only [reduceIte]
  rw [show ('"' :: (t ++ '\x7d' :: rest)) = ('"' :: t) ++ '\x7d' :: rest from rfl, ← ht]
  rw [parseMembers_dump ps g rest hall hne (by omega)]
  rfl

theorem json_loads_json_dumps (d : PyDict) (h : d.strScalarItems = true) :
    ∃ s, json_dumps d = .ok s ∧ json_loads s = some (.obj (pyItemsJson d.items)) := by
  refine ⟨"\x7b" ++ py_join ", " (d.items.map jItemText) ++ "\x7d",
    json_dumps_eq d h, ?_⟩
  rcases hit : d.items with _ | ⟨kv, t⟩
  · rw [show ("\x7b" ++ py_join ", " (([] : List (PyVal × PyVal)).map jItemText) ++ "\x7d")
      = "\x7b\x7d" from rfl]
    rfl
  · have hne : d.items ≠ [] := by rw [hit]; simp
    rw [← hit]
    have hdata : ("\x7b" ++ py_join ", " (d.items.map jItemText) ++ "\x7d").data =
        '\x7b' :: ((py_join ", " (d.items.map jItemText)).data ++ '\x7d' :: []) := by
      rw [String.data_append, String.data_append]
      rfl
    rw [json_loads, hdata]
    have hlen : d.items.length ≤ (py_join ", " (d.items.map jItemText)).data.length := by
      have := py_join_data_len ", " (d.items.map jItemText) (by
        intro p hp
        obtain ⟨kv', _, rfl⟩ := List.mem_map.mp hp
        obtain ⟨tt, htt⟩ := jItemText_data_cons kv'
        rw [htt]
        simp)
      simpa using this
    rw [parseValue_obj_dump d.items _ [] (strScalar_item d h) hne (by
      simp only [List.length_cons, List.length_append]
      omega)]
    rfl

theorem setEntries_mem (es : List PyEntry) (k v : PyVal) (e : PyEntry)
    (he : e ∈ setEntries es k v) : e ∈ es ∨ e = some (k, v) := by
  induction es with
  | nil =>
    simp [setEntries] at he
    right
    exact he
  | cons a t ih =>
    cases a with
    | none =>
      simp only [setEntries] at he
      rcases List.mem_cons.mp he with h1 | h1
      · left
        simp [h1]
      · rcases ih h1 with h2 | h2
        · left
          simp [h2]
        · right
          exact h2
    | some kv0 =>
      obtain ⟨k0, v0⟩ := kv0
      simp only [setEntries] at he
      by_cases h0 : k0 = k
      · rw [if_pos h0] at he
        rcases List.mem_cons.mp he with h1 | h1
        · right
          exact h1
        · left
          simp [h1]
      · rw [if_neg h0] at he
        rcases List.mem_cons.mp he with h1 | h1
        · left
          simp [h1]
        · rcases ih h1 with h2 | h2
          · left
            simp [h2]
          · right
            exact h2

theorem PyDict.set_allAscii (d : PyDict) (k v : PyVal) (hd : d.allAsciiStr = true)
    (hk : asciiVal k = true) (hv : asciiVal v = true) :
    (d.set k v).allAsciiStr = true := by
  rw [PyDict.allAsciiStr, List.all_eq_true]
  intro e he
  rcases setEntries_mem d.entries k v e he with h1 | h1
  · exact (List.all_eq_true.mp hd) e h1
  · subst h1
    simp [hk, hv]

theorem py_join_ascii (sep : String) (hsep : sep.data.all isAsciiChar = true)
    (parts : List String) (h : ∀ p ∈ parts, p.data.all isAsciiChar = true) :
    (py_join sep parts).data.all isAsciiChar = true := by
  induction parts with
  | nil => rfl
  | cons a t ih =>
    cases t with
    | nil => exact h a (by simp)
    | cons b u =>
      rw [py_join_cons]
      simp only [String.data_append, List.all_append]
      refine by
        simp only [Bool.and_eq_true]
        exact ⟨⟨h a (by simp), hsep⟩, ih (fun p hp => h p (by simp at hp ⊢; tauto))⟩

theorem add_accepts_allAscii (accept : List String) (headers : PyDict)
    (hh : headers.allAsciiStr = true)
    (ha : ∀ a ∈ accept, a.data.all isAsciiChar = true) :
    (add_accepts accept headers).allAsciiStr = true := by
  rw [add_accepts]
  by_cases hacc : accept ≠ []
  · rw [if_pos hacc]
    exact headers.set_allAscii _ _ hh (by decide)
      (by simpa [asciiVal] using py_join_ascii "," (by decide) accept ha)
  · rw [if_neg hacc]
    exact headers.set_allAscii _ _ hh (by decide) (by decide)

theorem add_accepts_lookup (accept : List String) (headers : PyDict) :
    (add_accepts accept headers).lookup (.str "Accept") =
      some (.str (if accept = [] then "*/*" else py_join "," accept)) := by
  rw [add_accepts]
  by_cases hacc : accept ≠ []
  · rw [if_pos hacc, PyDict.lookup_set_self, if_neg hacc]
  · rw [if_neg hacc, PyDict.lookup_set_self, if_pos (by simpa using hacc)]

theorem add_accepts_lookup_ne (accept : List String) (headers : PyDict) (k : PyVal)
    (hk : k ≠ .str "Accept") :
    (add_accepts accept headers).lookup k = headers.lookup k := by
  rw [add_accepts]
  by_cases hacc : accept ≠ []
  · rw [if_pos hacc, PyDict.lookup_set_ne _ _ _ _ (Ne.symm hk)]
  · rw [if_neg hacc, PyDict.lookup_set_ne _ _ _ _ (Ne.symm hk)]

theorem allAscii_strScalar (d : PyDict) (h : d.allAsciiStr = true) :
    d.strScalarItems = true := by
  rw [PyDict.strScalarItems, List.all_eq_true]
  intro e he
  have := (List.all_eq_true.mp h) e he
  cases e with
  | none => rfl
  | some kv =>
    obtain ⟨k, v⟩ := kv
    simp only [Bool.and_eq_true] at this ⊢
    obtain ⟨hk, hv⟩ := this
    obtain ⟨s, rfl, _⟩ := asciiVal_str k hk
    obtain ⟨t, rfl, _⟩ := asciiVal_str v hv
    exact ⟨rfl, rfl⟩

theorem urlencode_ne_empty (d : PyDict) (h : d.items ≠ []) : urlencode d ≠ "" := by
  rw [urlencode]
  rcases hit : d.items with _ | ⟨⟨k, v⟩, t⟩
  · exact absurd hit h
  · intro hc
    have hdata : (py_join "&" (((k, v) :: t).map fun kv =>
        quote_plus kv.1 ++ "=" ++ quote_plus kv.2)).data = [] := by
      rw [hc]
    cases t with
    | nil =>
      simp only [List.map_cons, List.map_nil, py_join] at hdata
      rw [String.data_append] at hdata
      simp at hdata
    | cons b u =>
      simp only [List.map_cons, py_join_cons] at hdata
      rw [String.data_append, String.data_append, String.data_append] at hdata
      simp at hdata

theorem encodeParams_other (method : String) (params headers : PyDict)
    (hm : ¬ (method = "POST" ∨ method = "PUT")) (hp : params.allAsciiStr = true) :
    encodeParams method params headers = .ok (headers, urlencode params) := by
  rw [encodeParams, if_neg (by tauto), if_neg (by tauto)]
  rw [fix_params_ascii params hp]
  rfl

theorem encodeParams_json (method : String) (params headers : PyDict) (s : String)
    (hm : method = "POST" ∨ method = "PUT")
    (hct : headers.lookup (.str "Content-Type") = some (.str "application/json"))
    (hd : json_dumps params = .ok s) :
    encodeParams method params headers = .ok (headers, s) := by
  have hkey : headers.hasKey (.str "Content-Type") = true := by
    rw [PyDict.hasKey, hct]
    rfl
  rw [encodeParams, if_neg (by simp [hkey]), if_pos ⟨hm, hct⟩, hd]
  rfl

theorem encodeParams_form (method : String) (params headers : PyDict)
    (hm : method = "POST" ∨ method = "PUT")
    (hct : headers.hasKey (.str "Content-Type") = false)
    (hp : params.allAsciiStr = true) :
    encodeParams method params headers =
      .ok (headers.set (.str "Content-Type") (.str "application/x-www-form-urlencoded"),
        urlencode params) := by
  rw [encodeParams, if_pos ⟨hm, by simp [hct]⟩]
  rw [fix_params_ascii params hp]
  rfl

theorem rest_invoke_build_ok (scheme host path method : String) (params : PyDict)
    (accept : List String) (headers h2 h3 : PyDict) (ps : String)
    (hEnc : encodeParams method params (add_accepts accept headers) = .ok (h2, ps))
    (hFix : fix_headers h2 = .ok h3) :
    rest_invoke_build scheme host path method params [] accept headers =
      .ok (non_multipart ps host method path h3 scheme) := by
  rw [rest_invoke_build]
  simp [hEnc, hFix, bind, Except.bind, pure, Except.pure]

theorem non_multipart_headers_lookup (ps host method path : String) (hd : PyDict)
    (scheme : String) (k : PyVal) (hk : k ≠ .str "Content-Length") :
    (non_multipart ps host method path hd scheme).headers.lookup k = hd.lookup k := by
  rw [non_multipart]
  by_cases hm : method = "GET"
  · rw [if_pos hm]
    by_cases hps : ps ≠ ""
    · rw [if_pos hps]
      exact PyDict.lookup_set_ne _ _ _ _ (Ne.symm hk)
    · rw [if_neg hps]
      exact PyDict.lookup_set_ne _ _ _ _ (Ne.symm hk)
  · rw [if_neg hm]
    exact PyDict.lookup_set_ne _ _ _ _ (Ne.symm hk)

theorem startswith_head (s : String) (c : Char) (t : List Char)
    (h : s.data = c :: t) (c' : Char) (hne : c' ≠ c) :
    py_startswith s (String.mk [c']) = false := by
  rw [py_startswith]
  rw [show (String.mk [c']).data = [c'] from rfl, h]
  simp [List.isPrefixOf, hne]

theorem startswith_head_of (s : String) (c : Char)
    (h : py_startswith s (String.mk [c]) = true) : ∃ t, s.data = c :: t := by
  rw [py_startswith, show (String.mk [c]).data = [c] from rfl] at h
  cases hd : s.data with
  | nil => rw [hd] at h; simp [List.isPrefixOf] at h
  | cons x t =>
    rw [hd] at h
    simp only [List.isPrefixOf, List.isPrefixOf_nil_left, Bool.and_true, beq_iff_eq] at h
    subst h
    exact ⟨t, rfl⟩

/-- C1: with the fire-and-forget flag set, rest_invoke returns nothing to
the caller, but the request/response sequence is never executed either:
lines 334-338 construct a threading.Thread around _rest_invoke and discard
it without calling start, so the spawned thread never runs.  This
contradicts the claim (and the docstrings, which promise the request is
performed in a new thread). -/
theorem rest_invoke_async_never_runs (scheme host path method : String)
    (params : PyDict) (files : List (PyVal × PyVal)) (accept : List String)
    (headers : PyDict) :
    (rest_invoke scheme host path method params files accept headers true).1 = none ∧
    ∀ th ∈ (rest_invoke scheme host path method params files accept headers true).2,
      th.started = false := by
  refine ⟨rfl, ?_⟩
  intro th hth
  simp [rest_invoke] at hth
  subst hth
  rfl

/-- Witness for C1 at a concrete call. -/
theorem rest_invoke_async_never_runs_witness :
    (rest_invoke "http" "example.org" "/x" "GET" (PyDict.ofList []) [] []
        (PyDict.ofList []) true).1 = none ∧
    ∀ th ∈ (rest_invoke "http" "example.org" "/x" "GET" (PyDict.ofList []) [] []
        (PyDict.ofList []) true).2, th.started = false :=
  rest_invoke_async_never_runs "http" "example.org" "/x" "GET" (PyDict.ofList [])
    [] [] (PyDict.ofList [])

/-- C2 counterexample: a malformed brace-delimited GET body with a
non-JSON content type does not come back as raw content - the unguarded
json.loads raises, and the error propagates. -/
theorem decode_content_malformed_get_raises :
    decode_content "text/plain" "GET" "\x7bnot json\x7d" = .error .jsonDecodeError := by
  rfl

/-- C2 (amended): the heuristic JSON probe of the response decoder is a
hard parse: on a GET body that is brace- or bracket-delimited but not
valid JSON, under a non-JSON declared content type, the json.loads
failure propagates to the caller; the raw content is not returned. -/
theorem decode_content_malformed_raises (contentType body : String)
    (hct : py_startswith contentType "application/json" = false)
    (hbr : (py_startswith body "\x7b" = true ∧ py_endswith body "\x7d" = true) ∨
           (py_startswith body "[" = true ∧ py_endswith body "]" = true))
    (hj : json_loads body = none) :
    decode_content contentType "GET" body = .error .jsonDecodeError := by
  rw [decode_content, if_neg (by simp [hct])]
  rcases hbr with ⟨h1, h2⟩ | ⟨h1, h2⟩
  · rw [if_pos ⟨rfl, h1, h2⟩, hj]
  · obtain ⟨t, ht⟩ := startswith_head_of body '[' h1
    rw [if_neg (by
      rintro ⟨-, hb, -⟩
      rw [show ("\x7b" : String) = String.mk ['\x7b'] from rfl] at hb
      rw [startswith_head body '[' t ht '\x7b' (by decide)] at hb
      cases hb)]
    rw [if_pos ⟨rfl, h1, h2⟩, hj]

/-- Witness for C2's amended theorem at a concrete malformed body. -/
theorem decode_content_malformed_raises_witness :
    decode_content "text/html" "GET" "\x7bbad\x7d" = .error .jsonDecodeError :=
  decode_content_malformed_raises "text/html" "\x7bbad\x7d" (by rfl)
    (Or.inl ⟨by rfl, by rfl⟩) (by rfl)

/-- C4: a request with a non-empty file mapping never reaches the
transport, so no multipart Content-Type is ever sent: _rest_invoke has
already replaced params with the urlencoded or JSON string when line 396
calls unpack_params on it, and a str has no keys method, so the call
raises AttributeError (or the body encoding itself has already raised)
before post_multipart can run. -/
theorem files_request_never_sent (scheme host path method : String)
    (params : PyDict) (files : List (PyVal × PyVal)) (accept : List String)
    (headers : PyDict) (hf : files ≠ []) :
    ∃ e, rest_invoke_build scheme host path method params files accept headers =
      .error e := by
  rw [rest_invoke_build]
  rcases henc : encodeParams method params (add_accepts accept headers) with e | ⟨h2, ps⟩
  · exact ⟨e, by simp [henc, bind, Except.bind]⟩
  · exact ⟨.attributeError, by simp [henc, bind, Except.bind, hf]⟩

/-- Witness for C4 at a concrete file-bearing request. -/
theorem files_request_never_sent_witness :
    ∃ e, rest_invoke_build "http" "resizer.example.edu" "/resize" "POST"
      (PyDict.ofList []) [(.str "image", .str "IMAGEDATA")] []
      (PyDict.ofList []) = .error e :=
  files_request_never_sent "http" "resizer.example.edu" "/resize" "POST"
    (PyDict.ofList []) [(.str "image", .str "IMAGEDATA")] [] (PyDict.ofList [])
    (by simp)

/-- C5: parameter normalization is not total and does not deliver UTF-8
keys: fix_params re-files a non-ASCII (or non-str) key while iterating
over the dict, which trips CPython's keys-changed check, so
fix_params on a mapping with the single key 'é' raises RuntimeError
instead of returning a mapping with the UTF-8 bytes key. -/
theorem fix_params_nonascii_key_raises :
    fix_params (PyDict.ofList [(.str "é", .str "x")]) = .error .runtimeError := by
  rfl

/-- C7: header normalization does not return a lossy ASCII mapping for
non-ASCII input: the except branch of fix_headers re-files the entry
under the lossily-encoded bytes key while iterating, which trips
CPython's keys-changed check, so fix_headers on a mapping with the
non-ASCII value 'é' raises RuntimeError instead of dropping the
non-ASCII bytes. -/
theorem fix_headers_nonascii_raises :
    fix_headers (PyDict.ofList [(.str "a", .str "é")]) = .error .runtimeError := by
  rfl

/-- C8: a response whose declared content type starts with
application/json is returned as the decoded JSON value, and the GET
heuristic path decodes a bracket- or brace-delimited body that is valid
JSON under any other content type. -/
theorem decode_content_json_paths (contentType method body : String) (j : Json)
    (hj : json_loads body = some j) :
    (py_startswith contentType "application/json" = true →
      decode_content contentType method body = .ok (.parsed j)) ∧
    (py_startswith contentType "application/json" = false → method = "GET" →
      ((py_startswith body "\x7b" = true ∧ py_endswith body "\x7d" = true) ∨
       (py_startswith body "[" = true ∧ py_endswith body "]" = true)) →
      decode_content contentType method body = .ok (.parsed j)) := by
  constructor
  · intro hct
    rw [decode_content, if_pos hct, hj]
  · intro hct hm hbr
    subst hm
    rw [decode_content, if_neg (by simp [hct])]
    rcases hbr with ⟨h1, h2⟩ | ⟨h1, h2⟩
    · rw [if_pos ⟨rfl, h1, h2⟩, hj]
    · obtain ⟨t, ht⟩ := startswith_head_of body '[' h1
      rw [if_neg (by
        rintro ⟨-, hb, -⟩
        rw [show ("\x7b" : String) = String.mk ['\x7b'] from rfl] at hb
        rw [startswith_head body '[' t ht '\x7b' (by decide)] at hb
        cases hb)]
      rw [if_pos ⟨rfl, h1, h2⟩, hj]

/-- Witness for C8 at the spec's two examples: an application/json
response with an object body, and a GET response with a bracketed array
body under a non-JSON content type. -/
theorem decode_content_json_paths_witness :
    decode_content "application/json" "POST" "\x7b\"a\": 1\x7d" =
      .ok (.parsed (.obj [("a", .numLit "1")])) ∧
    decode_content "text/plain" "GET" "[1,2,3]" =
      .ok (.parsed (.arr [.numLit "1", .numLit "2", .numLit "3"])) :=
  ⟨(decode_content_json_paths "application/json" "POST" "\x7b\"a\": 1\x7d"
      (.obj [("a", .numLit "1")]) (by rfl)).1 (by rfl),
   (decode_content_json_paths "text/plain" "GET" "[1,2,3]"
      (.arr [.numLit "1", .numLit "2", .numLit "3"]) (by rfl)).2 (by rfl) rfl
      (Or.inr ⟨by rfl, by rfl⟩)⟩

/-- C9: the multipart encoder emits, for every plain field, a part with
the form-data Content-Disposition header and the stringified value, and
for every file field a part carrying name and filename and a Content-Type
derived from the filename extension (octet-stream fallback, inside
fileLines); all parts are joined with the fixed boundary token and the
body is terminated by the closing boundary marker. -/
theorem encode_multipart_formdata_wire (fields : List (String × PyVal))
    (files : List (String × String × PyVal)) :
    (encode_multipart_formdata fields files).1 =
      "multipart/form-data; boundary=" ++ BOUNDARY ∧
    (∃ pre, (encode_multipart_formdata fields files).2 =
      pre ++ ("--" ++ BOUNDARY ++ "--" ++ CRLF)) ∧
    (∀ kv ∈ fields, ∃ pre post, (encode_multipart_formdata fields files).2 =
      pre ++ (py_join CRLF (fieldLines kv) ++ CRLF) ++ post) ∧
    (∀ kfv ∈ files, ∃ pre post, (encode_multipart_formdata fields files).2 =
      pre ++ (py_join CRLF (fileLines kfv) ++ CRLF) ++ post) := by
  have hbody : (encode_multipart_formdata fields files).2 =
      py_join CRLF (fields.flatMap fieldLines ++ files.flatMap fileLines ++
        ["--" ++ BOUNDARY ++ "--", ""]) := rfl
  refine ⟨rfl, ?_, ?_, ?_⟩
  · by_cases hA : fields.flatMap fieldLines ++ files.flatMap fileLines = []
    · refine ⟨"", ?_⟩
      rw [hbody, hA]
      simp [py_join, String.append_empty, String.empty_append, String.append_assoc]
    · refine ⟨py_join CRLF (fields.flatMap fieldLines ++ files.flatMap fileLines) ++
        CRLF, ?_⟩
      rw [hbody, py_join_append CRLF _ _ hA (by simp)]
      simp [py_join, String.append_empty, String.append_assoc]
  · intro kv hkv
    obtain ⟨l1, l2, hsplit⟩ := List.append_of_mem hkv
    have hL : fields.flatMap fieldLines ++ files.flatMap fileLines ++
        ["--" ++ BOUNDARY ++ "--", ""] =
      l1.flatMap fieldLines ++ fieldLines kv ++
        (l2.flatMap fieldLines ++ files.flatMap fileLines ++
          ["--" ++ BOUNDARY ++ "--", ""]) := by
      rw [hsplit]
      simp [List.flatMap_append, List.append_assoc]
    obtain ⟨pre, hp⟩ := py_join_middle CRLF (l1.flatMap fieldLines) (fieldLines kv)
      (l2.flatMap fieldLines ++ files.flatMap fileLines ++
        ["--" ++ BOUNDARY ++ "--", ""])
      (by simp [fieldLines]) (by simp)
    refine ⟨pre, py_join CRLF (l2.flatMap fieldLines ++ files.flatMap fileLines ++
      ["--" ++ BOUNDARY ++ "--", ""]), ?_⟩
    rw [hbody, hL, hp]
    simp [String.append_assoc]
  · intro kfv hkfv
    obtain ⟨l1, l2, hsplit⟩ := List.append_of_mem hkfv
    have hL : fields.flatMap fieldLines ++ files.flatMap fileLines ++
        ["--" ++ BOUNDARY ++ "--", ""] =
      (fields.flatMap fieldLines ++ l1.flatMap fileLines) ++ fileLines kfv ++
        (l2.flatMap fileLines ++ ["--" ++ BOUNDARY ++ "--", ""]) := by
      rw [hsplit]
      simp [List.flatMap_append, List.append_assoc]
    obtain ⟨pre, hp⟩ := py_join_middle CRLF
      (fields.flatMap fieldLines ++ l1.flatMap fileLines) (fileLines kfv)
      (l2.flatMap fileLines ++ ["--" ++ BOUNDARY ++ "--", ""])
      (by simp [fileLines]) (by simp)
    refine ⟨pre, py_join CRLF (l2.flatMap fileLines ++
      ["--" ++ BOUNDARY ++ "--", ""]), ?_⟩
    rw [hbody, hL, hp]
    simp [String.append_assoc]

/-- Witness for C9 at a concrete field and file list. -/
theorem encode_multipart_formdata_wire_witness :
    (encode_multipart_formdata [("value", .str "store this")]
        [("image", "sample.jpg", .str "DATA")]).1 =
      "multipart/form-data; boundary=" ++ BOUNDARY ∧
    (∃ pre, (encode_multipart_formdata [("value", .str "store this")]
        [("image", "sample.jpg", .str "DATA")]).2 =
      pre ++ ("--" ++ BOUNDARY ++ "--" ++ CRLF)) ∧
    (∀ kv ∈ [("value", PyVal.str "store this")], ∃ pre post,
      (encode_multipart_formdata [("value", .str "store this")]
        [("image", "sample.jpg", .str "DATA")]).2 =
      pre ++ (py_join CRLF (fieldLines kv) ++ CRLF) ++ post) ∧
    (∀ kfv ∈ [("image", "sample.jpg", PyVal.str "DATA")], ∃ pre post,
      (encode_multipart_formdata [("value", .str "store this")]
        [("image", "sample.jpg", .str "DATA")]).2 =
      pre ++ (py_join CRLF (fileLines kfv) ++ CRLF) ++ post) :=
  encode_multipart_formdata_wire [("value", .str "store this")]
    [("image", "sample.jpg", .str "DATA")]

theorem encodeParams_default (method : String) (params headers : PyDict)
    (hc1 : ¬ ((method = "POST" ∨ method = "PUT") ∧
      ¬ headers.hasKey (.str "Content-Type") = true))
    (hc2 : ¬ ((method = "POST" ∨ method = "PUT") ∧
      headers.lookup (.str "Content-Type") = some (.str "application/json")))
    (hp : params.allAsciiStr = true) :
    encodeParams method params headers = .ok (headers, urlencode params) := by
  rw [encodeParams, if_neg (by simpa using hc1), if_neg hc2]
  rw [fix_params_ascii params hp]
  rfl

/-- C3 counterexample: a DELETE request with a non-empty parameter
mapping does not move the parameters into the query string: the path is
left untouched and the URL-encoded parameters are transmitted as the
request body. -/
theorem delete_params_in_body :
    (rest_invoke_build "http" "h" "/p" "DELETE"
        (PyDict.ofList [(.str "a", .str "1")]) [] []
        (PyDict.ofList [])).map (fun r => (r.path, r.body)) = .ok ("/p", "a=1") := by
  rfl

/-- C3 (amended): for GET requests without files and with a non-empty
parameter mapping (here over ASCII string entries, where normalization is
the identity), the URL-encoded parameters are appended to the request
path as a query string and the transmitted body is empty; DELETE is not
included - its parameters are sent as the body. -/
theorem get_params_in_query (scheme host path : String) (params headers : PyDict)
    (accept : List String)
    (hp : params.allAsciiStr = true) (hh : headers.allAsciiStr = true)
    (ha : ∀ a ∈ accept, a.data.all isAsciiChar = true)
    (hne : params.items ≠ []) (hq : path.data.contains '?' = false) :
    ∃ r, rest_invoke_build scheme host path "GET" params [] accept headers = .ok r ∧
      r.path = path ++ "?" ++ urlencode params ∧ r.body = "" := by
  have h1 : (add_accepts accept headers).allAsciiStr = true :=
    add_accepts_allAscii accept headers hh ha
  have hEnc := encodeParams_other "GET" params (add_accepts accept headers)
    (by simp) hp
  have hFix := fix_headers_ascii _ h1
  refine ⟨_, rest_invoke_build_ok scheme host path "GET" params accept headers _ _ _
    hEnc hFix, ?_, ?_⟩
  · rw [non_multipart, if_pos rfl, if_pos (urlencode_ne_empty params hne),
      if_pos (by simpa using hq)]
  · rw [non_multipart, if_pos rfl, if_pos (urlencode_ne_empty params hne)]

/-- Witness for C3's amended theorem at a concrete GET request. -/
theorem get_params_in_query_witness :
    ∃ r, rest_invoke_build "http" "h" "/q" "GET"
        (PyDict.ofList [(.str "a", .str "1"), (.str "b", .str "x y")]) [] []
        (PyDict.ofList []) = .ok r ∧
      r.path = "/q" ++ "?" ++ urlencode
        (PyDict.ofList [(.str "a", .str "1"), (.str "b", .str "x y")]) ∧
      r.body = "" :=
  get_params_in_query "http" "h" "/q"
    (PyDict.ofList [(.str "a", .str "1"), (.str "b", .str "x y")])
    (PyDict.ofList []) [] (by decide) (by decide) (by simp) (by decide) (by decide)

/-- C6 counterexample: a DELETE request whose caller headers declare
Content-Type application/json does not get a JSON body: the body is the
URL-encoded form a=1, which does not decode as JSON at all. -/
theorem delete_json_ct_body_not_json :
    (rest_invoke_build "http" "h" "/p" "DELETE"
        (PyDict.ofList [(.str "a", .str "1")]) [] []
        (PyDict.ofList [(.str "Content-Type", .str "application/json")])).map
      (fun r => (r.body, json_loads r.body)) = .ok ("a=1", none) := by
  rfl

/-- C6 (amended): for POST and PUT requests without files whose caller
headers declare Content-Type exactly application/json, the body is the
JSON serialization of the parameter mapping, and decoding it yields the
original mapping (str keys, str or int values); GET and DELETE requests
with the same header get a URL-encoded body instead. -/
theorem json_ct_body_roundtrip (scheme host path method : String)
    (params headers : PyDict) (accept : List String)
    (hm : method = "POST" ∨ method = "PUT")
    (hp : params.strScalarItems = true)
    (hh : headers.allAsciiStr = true)
    (ha : ∀ a ∈ accept, a.data.all isAsciiChar = true)
    (hct : headers.lookup (.str "Content-Type") = some (.str "application/json")) :
    ∃ r, rest_invoke_build scheme host path method params [] accept headers = .ok r ∧
      json_loads r.body = some (.obj (pyItemsJson params.items)) := by
  obtain ⟨s, hds, hls⟩ := json_loads_json_dumps params hp
  have h1 : (add_accepts accept headers).allAsciiStr = true :=
    add_accepts_allAscii accept headers hh ha
  have hct1 : (add_accepts accept headers).lookup (.str "Content-Type") =
      some (.str "application/json") := by
    rw [add_accepts_lookup_ne accept headers _ (by decide), hct]
  have hEnc := encodeParams_json method params (add_accepts accept headers) s hm
    hct1 hds
  have hFix := fix_headers_ascii _ h1
  refine ⟨_, rest_invoke_build_ok scheme host path method params accept headers _ _ _
    hEnc hFix, ?_⟩
  have hng : method ≠ "GET" := by
    rcases hm with h | h <;> subst h <;> decide
  rw [non_multipart, if_neg hng]
  exact hls

/-- Witness for C6's amended theorem at a concrete POST request. -/
theorem json_ct_body_roundtrip_witness :
    ∃ r, rest_invoke_build "http" "h" "/p" "POST"
        (PyDict.ofList [(.str "a", .str "1"), (.str "n", .int 5)]) []
        ["application/json"]
        (PyDict.ofList [(.str "Content-Type", .str "application/json")]) = .ok r ∧
      json_loads r.body = some (.obj (pyItemsJson
        (PyDict.ofList [(.str "a", .str "1"), (.str "n", .int 5)]).items)) :=
  json_ct_body_roundtrip "http" "h" "/p" "POST"
    (PyDict.ofList [(.str "a", .str "1"), (.str "n", .int 5)])
    (PyDict.ofList [(.str "Content-Type", .str "application/json")])
    ["application/json"] (Or.inl rfl) (by decide) (by decide) (by decide) (by decide)

/-- C10: whenever a request is successfully built and handed to the
transport (files absent, ASCII-clean inputs so that normalization cannot
raise), the header mapping holds an Accept header equal to the comma-join
of the accept list when it is non-empty and */* when it is empty, and any
caller-supplied Accept header has been replaced by this computed value. -/
theorem accept_header_computed (scheme host path method : String)
    (params headers : PyDict) (accept : List String)
    (hp : params.allAsciiStr = true) (hh : headers.allAsciiStr = true)
    (ha : ∀ a ∈ accept, a.data.all isAsciiChar = true) :
    ∃ r, rest_invoke_build scheme host path method params [] accept headers = .ok r ∧
      r.headers.lookup (.str "Accept") =
        some (.str (if accept = [] then "*/*" else py_join "," accept)) := by
  have h1 : (add_accepts accept headers).allAsciiStr = true :=
    add_accepts_allAscii accept headers hh ha
  by_cases hmp : method = "POST" ∨ method = "PUT"
  · by_cases hkey : (add_accepts accept headers).hasKey (.str "Content-Type") = true
    · by_cases hjson : (add_accepts accept headers).lookup (.str "Content-Type") =
        some (.str "application/json")
      · obtain ⟨s, hds, _⟩ := json_loads_json_dumps params (allAscii_strScalar params hp)
        have hEnc := encodeParams_json method params (add_accepts accept headers) s
          hmp hjson hds
        refine ⟨_, rest_invoke_build_ok scheme host path method params accept headers
          _ _ _ hEnc (fix_headers_ascii _ h1), ?_⟩
        rw [non_multipart_headers_lookup _ _ _ _ _ _ _ (by decide),
          add_accepts_lookup]
      · have hEnc := encodeParams_default method params (add_accepts accept headers)
          (by simp [hkey]) (by tauto) hp
        refine ⟨_, rest_invoke_build_ok scheme host path method params accept headers
          _ _ _ hEnc (fix_headers_ascii _ h1), ?_⟩
        rw [non_multipart_headers_lookup _ _ _ _ _ _ _ (by decide),
          add_accepts_lookup]
    · have hEnc := encodeParams_form method params (add_accepts accept headers) hmp
        (by simpa using hkey) hp
      have h2 : ((add_accepts accept headers).set (.str "Content-Type")
          (.str "application/x-www-form-urlencoded")).allAsciiStr = true :=
        PyDict.set_allAscii _ _ _ h1 (by decide) (by decide)
      refine ⟨_, rest_invoke_build_ok scheme host path method params accept headers
        _ _ _ hEnc (fix_headers_ascii _ h2), ?_⟩
      rw [non_multipart_headers_lookup _ _ _ _ _ _ _ (by decide),
        PyDict.lookup_set_ne _ _ _ _ (by decide), add_accepts_lookup]
  · have hEnc := encodeParams_other method params (add_accepts accept headers) hmp hp
    refine ⟨_, rest_invoke_build_ok scheme host path method params accept headers
      _ _ _ hEnc (fix_headers_ascii _ h1), ?_⟩
    rw [non_multipart_headers_lookup _ _ _ _ _ _ _ (by decide),
      add_accepts_lookup]

/-- Witness for C10: a request whose caller supplied an Accept header of
its own; the computed comma-join replaces it. -/
theorem accept_header_computed_witness :
    ∃ r, rest_invoke_build "http" "h" "/p" "GET" (PyDict.ofList []) []
        ["application/json", "text/xml"]
        (PyDict.ofList [(.str "Accept", .str "text/html")]) = .ok r ∧
      r.headers.lookup (.str "Accept") =
        some (.str (if (["application/json", "text/xml"] : List String) = []
          then "*/*" else py_join "," ["application/json", "text/xml"])) :=
  accept_header_computed "http" "h" "/p" "GET" (PyDict.ofList [])
    (PyDict.ofList [(.str "Accept", .str "text/html")])
    ["application/json", "text/xml"] (by decide) (by decide) (by decide)
